import Mathlib

set_option maxHeartbeats 1000000

/-!
Shallow embedding of the event registration and dispatch subsystem of
`src/prototype/dom/event.js` (observe / stopObserving / fire, the per-element
event registry keyed by unique element ids, custom-event responders, and the
`Event.Handler` delegation class), together with the identity counter from
`src/prototype/dom/dom.js` (`Element.Storage.UID`, starting at 1, with the
global `window` object hard-coded to id 0).

DOM nodes are represented by natural numbers.  JavaScript object property
tables (the `Event.cache` registry, the per-registry event-name buckets and
the platform listener lists) are represented by association lists.  Handler
functions are opaque and identified by natural numbers; invoking a handler is
recorded in a dispatch trace rather than executed.
-/

namespace Proto

/-! ### Association-list helpers (JavaScript object property maps) -/

def lookupA {α β : Type} [DecidableEq α] : List (α × β) → α → Option β
  | [], _ => none
  | p :: rest, a => if p.1 = a then some p.2 else lookupA rest a

def setA {α β : Type} [DecidableEq α] : List (α × β) → α → β → List (α × β)
  | [], _, _ => []
  | p :: rest, a, b => if p.1 = a then (a, b) :: rest else p :: setA rest a b

def putA {α β : Type} [DecidableEq α] (l : List (α × β)) (a : α) (b : β) : List (α × β) :=
  if (lookupA l a).isSome then setA l a b else l ++ [(a, b)]

def eraseA {α β : Type} [DecidableEq α] : List (α × β) → α → List (α × β)
  | [], _ => []
  | p :: rest, a => if p.1 = a then rest else p :: eraseA rest a

/-! ### JavaScript values (for `memo` and `bubble` arguments) -/

/-- A JavaScript value, as far as the event subsystem inspects one:
`fire` tests its `memo` and `bubble` arguments only for truthiness and
undefined-ness.  Object references are identified by a numeric id. -/
inductive JVal where
  | undef
  | null
  | bool (b : Bool)
  | num (n : Int)
  | str (s : String)
  | obj (id : Nat)
deriving DecidableEq, Repr

/-- JavaScript truthiness of a value (`if (x)` / `x || y`). -/
def truthy : JVal → Bool
  | .undef => false
  | .null => false
  | .bool b => b
  | .num n => n != 0
  | .str s => s != ""
  | .obj _ => true

/-- The fresh empty object literal allocated by `event.memo = memo || \x7b\x7d`;
object id 0 is reserved for it. -/
def emptyObject : JVal := .obj 0

/-! ### The host document model -/

/-- The surrounding DOM/host environment, as consumed by the event subsystem:
a parent relation (absent key = null `parentNode`), the `matches` selector
predicate, node classification used by `_element`, and the capability flags
read by `getFireTarget`. -/
structure Dom where
  window : Nat
  document : Nat
  documentElement : Nat
  parents : List (Nat × Nat)
  matchesSel : Nat → String → Bool
  /-- Result of `element.matches(x)` when `x` is a non-string (e.g. a function
  left in the selector slot); the host coerces the argument to a string. -/
  matchesCoerced : Nat → Nat → Bool
  isElement : Nat → Bool
  isTextNode : Nat → Bool
  tagName : Nat → Option String
  inputType : Nat → Option String
  createEventSupported : Bool
  docDispatchSupported : Bool

/-! ### Registry data -/

/-- The closure data captured by a responder built by `Event._createResponder`:
the element's uid, the logical event name and the user handler.  `rid` models
the identity of the closure object itself (each call to the factory creates a
distinct function), which is what `removeEventListener` compares. -/
structure Responder where
  rid : Nat
  uid : Nat
  eventName : String
  handler : Nat
deriving DecidableEq, Repr

/-- One entry of an event-name bucket: `\x7b responder: ..., handler: ... \x7d`. -/
structure Binding where
  responder : Responder
  handler : Nat
deriving DecidableEq, Repr

/-- A per-element registry stored in `Event.cache`: the `element` slot plus
one bucket of bindings per observed event name. -/
structure RegEntry where
  element : Nat
  events : List (String × List Binding)
deriving DecidableEq, Repr

/-- The mutable global state of the subsystem: the `_prototypeUID` expandos
(node to uid), the `Element.Storage.UID` counter, `Event.cache`, the
platform's per-(node, event-type) listener lists, and a counter allocating
responder-closure identities. -/
structure EvState where
  uids : List (Nat × Nat)
  uidCounter : Nat
  cache : List (Nat × RegEntry)
  listeners : List ((Nat × String) × List Responder)
  ridCounter : Nat
deriving DecidableEq, Repr

/-- State at load time: no uids assigned (`Element.Storage.UID = 1`),
`Event.cache = \x7b\x7d`, no platform listeners. -/
def initialState : EvState :=
  { uids := [], uidCounter := 1, cache := [], listeners := [], ridCounter := 0 }

/-! ### Identity registry (`getUniqueElementID`) -/

/-- `getUniqueElementID(element)`: 0 for `window`; otherwise the stored
`_prototypeUID`, lazily allocated from `Element.Storage.UID++`. -/
def getUniqueElementID (dom : Dom) (s : EvState) (element : Nat) : Nat × EvState :=
  if element = dom.window then (0, s)
  else
    match lookupA s.uids element with
    | some u => (u, s)
    | none =>
      (s.uidCounter,
        { s with uids := s.uids ++ [(element, s.uidCounter)],
                 uidCounter := s.uidCounter + 1 })

/-- Pure read of a node's uid, when already assigned (window is 0). -/
def uidOf (dom : Dom) (s : EvState) (element : Nat) : Option Nat :=
  if element = dom.window then some 0 else lookupA s.uids element

/-- `isCustomEvent(eventName)`: the name contains a colon (expressed over
the string's character list so it evaluates by reduction). -/
def isCustomEvent (eventName : String) : Bool :=
  eventName.data.contains ':'

/-- `getOrCreateRegistryFor(element)`: looks up (or seeds with
`\x7b element \x7d`) the cache entry for the element's uid.  Returns the uid,
the entry and the state in which the entry is guaranteed present. -/
def getOrCreateRegistryFor (dom : Dom) (s : EvState) (element : Nat) :
    Nat × RegEntry × EvState :=
  let (uid, s) := getUniqueElementID dom s element
  match lookupA s.cache uid with
  | some reg => (uid, reg, s)
  | none =>
    let reg : RegEntry := { element := element, events := [] }
    (uid, reg, { s with cache := s.cache ++ [(uid, reg)] })

/-- Write a (mutated) registry entry back to the cache slot it was read from;
models mutation through the shared object reference. -/
def writeBack (s : EvState) (uid : Nat) (reg : RegEntry) : EvState :=
  { s with cache := setA s.cache uid reg }

/-- `destroyRegistryForElement(element)`: `delete GLOBAL.Event.cache[uid]`. -/
def destroyRegistryForElement (dom : Dom) (s : EvState) (element : Nat) : EvState :=
  let (uid, s) := getUniqueElementID dom s element
  { s with cache := eraseA s.cache uid }

/-- Allocation effect of `Event._createResponder(uid, eventName, handler)`:
a fresh closure capturing the uid, the logical event name and the handler
(and nothing else — in particular no DOM node).  Its run-time behaviour is
`runResponder` below. -/
def createResponder (s : EvState) (uid : Nat) (eventName : String) (handler : Nat) :
    Responder × EvState :=
  ({ rid := s.ridCounter, uid := uid, eventName := eventName, handler := handler },
    { s with ridCounter := s.ridCounter + 1 })

/-- `register(element, eventName, handler)`: ensure the entry and the bucket,
scan the bucket for an identical handler (duplicate: return null), otherwise
build a responder, append a new binding and return it. -/
def register (dom : Dom) (s : EvState) (element : Nat) (eventName : String)
    (handler : Nat) : Option Binding × EvState :=
  let (uid, reg, s) := getOrCreateRegistryFor dom s element
  -- if (!registry[eventName]) registry[eventName] = [];
  let reg := if (lookupA reg.events eventName).isSome then reg
             else { reg with events := reg.events ++ [(eventName, [])] }
  let entries := (lookupA reg.events eventName).getD []
  if entries.any (fun e => e.handler = handler) then
    (none, writeBack s uid reg)
  else
    let (uid2, s) := getUniqueElementID dom s element
    let (responder, s) := createResponder s uid2 eventName handler
    let entry : Binding := { responder := responder, handler := handler }
    let reg := { reg with events := setA reg.events eventName (entries ++ [entry]) }
    (some entry, writeBack s uid reg)

/-- `unregister(element, eventName, handler)`: find the binding by scanning
the bucket from the end (`while (i--)`), splice it out, delete the bucket if
it became empty, and destroy the whole entry if only the `element` slot
remains. -/
def unregister (dom : Dom) (s : EvState) (element : Nat) (eventName : String)
    (handler : Nat) : Option Binding × EvState :=
  let (uid, reg, s) := getOrCreateRegistryFor dom s element
  match lookupA reg.events eventName with
  | none =>
    -- entries = []; nothing found; `delete registry[eventName]` is a no-op,
    -- and the entry is destroyed if it holds nothing but the element slot.
    let s := writeBack s uid reg
    let s := if reg.events.isEmpty then destroyRegistryForElement dom s element else s
    (none, s)
  | some entries =>
    let entry? := entries.reverse.find? (fun e => e.handler = handler)
    let entries' := match entry? with
      | some entry => entries.erase entry   -- indexOf + splice(index, 1)
      | none => entries
    if entries'.isEmpty then
      let reg := { reg with events := eraseA reg.events eventName }
      let s := writeBack s uid reg
      let s := if reg.events.isEmpty then destroyRegistryForElement dom s element else s
      (entry?, s)
    else
      let reg := { reg with events := setA reg.events eventName entries' }
      (entry?, writeBack s uid reg)

/-! ### Platform listener mechanism -/

/-- The platform's listener list for one (node, event-type) pair. -/
def listenersAt (s : EvState) (node : Nat) (ty : String) : List Responder :=
  (lookupA s.listeners (node, ty)).getD []

/-- `element.addEventListener(type, responder, false)`: appends the listener
unless the identical callback is already attached. -/
def addEventListener (s : EvState) (node : Nat) (ty : String) (r : Responder) : EvState :=
  let cur := listenersAt s node ty
  if r ∈ cur then s
  else { s with listeners := putA s.listeners (node, ty) (cur ++ [r]) }

/-- `element.removeEventListener(type, responder, false)`: removes the
identical callback, a no-op when it is not attached. -/
def removeEventListener (s : EvState) (node : Nat) (ty : String) (r : Responder) : EvState :=
  match lookupA s.listeners (node, ty) with
  | some cur => { s with listeners := setA s.listeners (node, ty) (cur.erase r) }
  | none => s

/-! ### Dispatcher: observe / stopObserving -/

/-- The platform event type a logical event name is attached under: custom
(colon-containing) names ride on the generic `"dataavailable"` carrier. -/
def actualEventName (eventName : String) : String :=
  if isCustomEvent eventName then "dataavailable" else eventName

/-- `Event.observe(element, eventName, handler)`: register in the cache; on a
duplicate, return the element unchanged; otherwise attach the new binding's
responder under the actual platform event name.  Returns the element. -/
def observe (dom : Dom) (s : EvState) (element : Nat) (eventName : String)
    (handler : Nat) : Nat × EvState :=
  let (entry?, s) := register dom s element eventName handler
  match entry? with
  | none => (element, s)
  | some entry => (element, addEventListener s element (actualEventName eventName) entry.responder)

/-- `removeEvent(element, eventName, handler)`: detach a responder under the
actual platform event name. -/
def removeEvent (s : EvState) (element : Nat) (eventName : String) (r : Responder) : EvState :=
  removeEventListener s element (actualEventName eventName) r

/-- `stopObservingElement(element)`: destroy the whole registry entry (if
any), detaching every responder of every bucket (`while (i--)`). -/
def stopObservingElement (dom : Dom) (s : EvState) (element : Nat) : EvState :=
  let (uid, s) := getUniqueElementID dom s element
  match lookupA s.cache uid with
  | none => s
  | some registry =>
    let s := { s with cache := eraseA s.cache uid }
    registry.events.foldl
      (fun s p => p.2.reverse.foldl (fun s e => removeEvent s element p.1 e.responder) s) s

/-- `stopObservingEventName(element, eventName)`: delete one bucket,
detaching its responders; destroy the entry when no other bucket remains. -/
def stopObservingEventName (dom : Dom) (s : EvState) (element : Nat)
    (eventName : String) : EvState :=
  let (uid, reg, s) := getOrCreateRegistryFor dom s element
  let (reg, s) :=
    match lookupA reg.events eventName with
    | some entries =>
      let reg := { reg with events := eraseA reg.events eventName }
      let s := writeBack s uid reg
      (reg, entries.reverse.foldl
        (fun (s : EvState) (e : Binding) => removeEvent s element eventName e.responder) s)
    | none => (reg, writeBack s uid reg)
  -- for (name in registry) return if any event key other than `element` is left
  if reg.events.isEmpty then destroyRegistryForElement dom s element else s

/-- `Event.stopObserving(element[, eventName[, handler]])`: three forms — all
bindings of the element, one event name, or one (eventName, handler) pair.
(When a handler is given without an event name the JavaScript property lookup
coerces the `undefined` key to the string `"undefined"`.) -/
def stopObserving (dom : Dom) (s : EvState) (element : Nat)
    (eventName : Option String) (handler : Option Nat) : Nat × EvState :=
  let handlerGiven := handler.isSome
  let eventNameGiven := eventName.isSome
  if !eventNameGiven && !handlerGiven then
    (element, stopObservingElement dom s element)
  else if !handlerGiven then
    (element, stopObservingEventName dom s element (eventName.getD "undefined"))
  else
    let (entry?, s) := unregister dom s element (eventName.getD "undefined") (handler.getD 0)
    match entry? with
    | none => (element, s)
    | some entry => (element, removeEvent s element (eventName.getD "undefined") entry.responder)

/-! ### Responder behaviour and dispatch -/

/-- A platform event object, with the fields this subsystem reads or writes:
its native type, bubbling/cancelable flags, the stamped logical `eventName`
tag and `memo` payload, and its target / current target. -/
structure PEvent where
  type : String
  bubbles : Bool
  cancelable : Bool
  eventName : Option String
  memo : JVal
  target : Nat
  currentTarget : Option Nat
deriving DecidableEq, Repr

/-- Outcome of running one responder on one platform event. -/
inductive RespResult where
  /-- The user handler was called, with the given value as its `this`
  context (`none` models an `undefined` context). -/
  | invoked (context : Option Nat)
  /-- Returned without calling the handler (plain `return` or
  `return false`). -/
  | skipped
  /-- A `TypeError` was raised reading `.element` of a missing cache entry. -/
  | errored
deriving DecidableEq, Repr

/-- Behaviour of a native-event responder (`createResponder`, non-custom
branch): `if (!Event.cache) return;` — the global cache object always exists
after load, so the guard never fires — then
`Event.cache[uid].element`, which raises a TypeError when the entry for the
uid was destroyed, and `handler.call(element, event)`. -/
def runNativeResponder (s : EvState) (r : Responder) (_ev : PEvent) : RespResult :=
  match lookupA s.cache r.uid with
  | none => .errored
  | some entry => .invoked (some entry.element)

/-- Behaviour of a custom-event responder
(`createResponderForCustomEvent`): `element` is resolved through the cache
(`cache && cache.element`, possibly undefined); missing or mismatched
`event.eventName` tags return false without calling the handler; otherwise
`handler.call(element, event)` — also when the entry was destroyed. -/
def runCustomResponder (s : EvState) (r : Responder) (ev : PEvent) : RespResult :=
  let element : Option Nat := (lookupA s.cache r.uid).map (·.element)
  match ev.eventName with
  | none => .skipped
  | some tag => if tag = r.eventName then .invoked element else .skipped

/-- Run a responder: the factory chose the custom branch iff the captured
logical event name contains a colon. -/
def runResponder (s : EvState) (r : Responder) (ev : PEvent) : RespResult :=
  if isCustomEvent r.eventName then runCustomResponder s r ev
  else runNativeResponder s r ev

/-- The inclusive ancestor chain of a node (`parentNode` walk).  The fuel
`dom.parents.length` suffices for any acyclic parent relation. -/
def chainAux (parents : List (Nat × Nat)) : Nat → Nat → List Nat
  | n, 0 => [n]
  | n, fuel + 1 =>
    n :: (match lookupA parents n with
          | some p => chainAux parents p fuel
          | none => [])

/-- Inclusive ancestor chain of a node in the document. -/
def nodeChain (dom : Dom) (n : Nat) : List Nat :=
  chainAux dom.parents n dom.parents.length

/-- The nodes whose listeners a dispatched event reaches: the target, then —
when the event bubbles — its ancestors. -/
def dispatchPath (dom : Dom) (ev : PEvent) : List Nat :=
  if ev.bubbles then nodeChain dom ev.target else [ev.target]

/-- Synchronous `dispatchEvent`: at each node of the path, run that node's
listeners for the event's type, in attachment order.  The trace records the
node, the responder and its outcome; user handlers are opaque, so invoking
one is recorded rather than executed. -/
def dispatchTrace (dom : Dom) (s : EvState) (ev : PEvent) :
    List (Nat × Responder × RespResult) :=
  (dispatchPath dom ev).flatMap
    (fun node => (listenersAt s node ev.type).map
      (fun r => (node, r, runResponder s r ev)))

/-- The handlers a dispatch trace actually invoked, in invocation order,
paired with their `this` context. -/
def invokedHandlers (tr : List (Nat × Responder × RespResult)) : List (Nat × Option Nat) :=
  tr.filterMap (fun t => match t.2.2 with
    | .invoked ctx => some (t.2.1.handler, ctx)
    | _ => none)

/-! ### Firing custom events -/

/-- `getFireTarget(element)`: documents that cannot dispatch directly degrade
to their top-level element. -/
def getFireTarget (dom : Dom) (element : Nat) : Nat :=
  if element ≠ dom.document then element
  else if dom.createEventSupported && !dom.docDispatchSupported then dom.documentElement
  else element

/-- `Event.fire(element, eventName, memo, bubble)`: create an `HTMLEvents`
platform event of the generic `"dataavailable"` carrier type, stamp the
logical `eventName` tag and the `memo` payload (`memo || \x7b\x7d`), default
`bubble` to true when undefined, dispatch synchronously on the fire target
and return the event.  The returned state is the input state: `fire` never
writes the registry, the uid expandos or any counter. -/
def fire (dom : Dom) (s : EvState) (element : Nat) (eventName : String)
    (memo : JVal) (bubble : JVal) :
    PEvent × List (Nat × Responder × RespResult) × EvState :=
  let target := getFireTarget dom element
  let bubbles := if bubble = JVal.undef then true else truthy bubble
  let event : PEvent :=
    { type := "dataavailable", bubbles := bubbles, cancelable := true,
      eventName := some eventName,
      memo := if truthy memo then memo else emptyObject,
      target := target, currentTarget := none }
  (event, dispatchTrace dom s event, s)

/-! ### Event delegation (`Event.Handler`, `Event.on`) -/

/-- The selector argument slot of `Event.on` / `new Event.Handler`: a CSS
selector string, a function (the callback, when the selector is omitted), or
null/undefined. -/
inductive SelArg where
  | sel (s : String)
  | fn (f : Nat)
  | nil
deriving DecidableEq, Repr

/-- `_element(event)`: the event's target, replaced by `currentTarget` for
the known-broken (type, currentTarget) combinations, and lifted to the
parent element when the target is a text node. -/
def elementOf (dom : Dom) (ev : PEvent) : Option Nat :=
  let node := ev.target
  let node :=
    match ev.currentTarget with
    | some ct =>
      match dom.tagName ct with
      | some tn =>
        if tn ≠ "" ∧
            (ev.type = "load" ∨ ev.type = "error" ∨
              (ev.type = "click" ∧ tn.toLower = "input" ∧ dom.inputType ct = some "radio"))
        then ct else node
      | none => node
    | none => node
  if dom.isTextNode node then lookupA dom.parents node else some node

/-- The `while (element)` loop of `findElement`: walk the parent chain until
a node is an element matching the expression. -/
def findElementLoop (dom : Dom) (expression : String) : Option Nat → Nat → Option Nat
  | none, _ => none
  | some _, 0 => none
  | some el, fuel + 1 =>
    if dom.isElement el && dom.matchesSel el expression then some el
    else findElementLoop dom expression (lookupA dom.parents el) fuel

/-- Like `findElementLoop` but for a non-string expression (coerced by the
host's `matches`). -/
def findElementLoopFn (dom : Dom) (f : Nat) : Option Nat → Nat → Option Nat
  | none, _ => none
  | some _, 0 => none
  | some el, fuel + 1 =>
    if dom.isElement el && dom.matchesCoerced el f then some el
    else findElementLoopFn dom f (lookupA dom.parents el) fuel

/-- `Event.findElement(event, expression)`: with no (or a falsy) expression,
the event's element; otherwise the nearest inclusive ancestor of that
element matching the expression — walking the chain all the way to the
document root. -/
def findElement (dom : Dom) (ev : PEvent) : SelArg → Option Nat
  | .nil => elementOf dom ev
  | .sel expr =>
    if expr = "" then elementOf dom ev
    else findElementLoop dom expr (elementOf dom ev) (dom.parents.length + 1)
  | .fn f => findElementLoopFn dom f (elementOf dom ev) (dom.parents.length + 1)

/-- The state of one `Event.Handler` delegation object. -/
structure EHandler where
  element : Nat
  eventName : String
  selector : SelArg
  callback : Option Nat
deriving DecidableEq, Repr

/-- `Event.Handler#handleEvent`: find the matching element for the configured
selector; when found, call the callback with the original element as `this`
and the (event, matched element) pair as arguments.  Returns the context and
matched element of the invocation, or `none` when the callback is not
invoked. -/
def handleEvent (dom : Dom) (h : EHandler) (ev : PEvent) : Option (Nat × Nat) :=
  match findElement dom ev h.selector with
  | some element => some (h.element, element)
  | none => none

/-- Argument normalization of `Event.on(element, eventName[, selector],
callback)`: a function in the selector slot with no fourth argument is the
callback, and the selector becomes null. -/
def onArgs (selector : SelArg) (callback : Option Nat) : SelArg × Option Nat :=
  match selector, callback with
  | .fn f, none => (.nil, some f)
  | sel, cb => (sel, cb)

/-- The `Event.Handler` record built by `Event.on` (its constructor), before
`start()` attaches the bound handler. -/
def onHandler (element : Nat) (eventName : String) (selector : SelArg)
    (callback : Option Nat) : EHandler :=
  let (sel, cb) := onArgs selector callback
  { element := element, eventName := eventName, selector := sel, callback := cb }

/-! ### Operation sequences over the registry -/

/-- One public operation on the event subsystem. -/
inductive Op where
  | observe (n : Nat) (e : String) (h : Nat)
  | stopObserving (n : Nat) (e : Option String) (h : Option Nat)
  | fire (n : Nat) (e : String) (memo : JVal) (bubble : JVal)
deriving Repr

/-- State transition of one operation. -/
def applyOp (dom : Dom) (s : EvState) : Op → EvState
  | .observe n e h => (Proto.observe dom s n e h).2
  | .stopObserving n e h => (Proto.stopObserving dom s n e h).2
  | .fire n e m b => (Proto.fire dom s n e m b).2.2

/-- State after a sequence of operations from the load-time state. -/
def applyOps (dom : Dom) (ops : List Op) : EvState :=
  ops.foldl (applyOp dom) initialState

/-! ### Observations used by the claims -/

/-- Does the event cache hold an entry for this uid? -/
def hasEntry (s : EvState) (u : Nat) : Bool :=
  (lookupA s.cache u).isSome

/-- Does the entry for this uid hold at least one binding? -/
def hasActiveBinding (s : EvState) (u : Nat) : Bool :=
  match lookupA s.cache u with
  | some entry => entry.events.any (fun p => !p.2.isEmpty)
  | none => false

/-- The bucket of bindings for a node and event name (empty when the node has
no uid, no entry or no bucket). -/
def bindingsFor (dom : Dom) (s : EvState) (element : Nat) (eventName : String) :
    List Binding :=
  match uidOf dom s element with
  | none => []
  | some u =>
    match lookupA s.cache u with
    | none => []
    | some entry => (lookupA entry.events eventName).getD []

/-- No binding anywhere in the cache carries this handler. -/
def cacheHandlerFree (s : EvState) (H : Nat) : Prop :=
  ∀ q ∈ s.cache, ∀ p ∈ q.2.events, ∀ b ∈ p.2, b.handler ≠ H

/-- No attached platform listener carries this handler. -/
def listenersHandlerFree (s : EvState) (H : Nat) : Prop :=
  ∀ q ∈ s.listeners, ∀ r ∈ q.2, r.handler ≠ H

/-- Dispatching a logical event name at a node: custom names are fired
through `fire`, native names arrive as a platform event of that type. -/
def dispatchEventName (dom : Dom) (s : EvState) (element : Nat) (eventName : String) :
    List (Nat × Responder × RespResult) :=
  if isCustomEvent eventName then (fire dom s element eventName JVal.undef JVal.undef).2.1
  else dispatchTrace dom s
    { type := eventName, bubbles := true, cancelable := true, eventName := none,
      memo := JVal.undef, target := element, currentTarget := none }

/-- The node path such a dispatch traverses. -/
def claimPath (dom : Dom) (element : Nat) (eventName : String) : List Nat :=
  if isCustomEvent eventName then nodeChain dom (getFireTarget dom element)
  else nodeChain dom element

/-- The full ancestor chain of a node, as an explicit list: the walk from the
node along `parents` ending at a node with no parent. -/
inductive IsChain (dom : Dom) : Nat → List Nat → Prop where
  | root (n : Nat) (hn : lookupA dom.parents n = none) : IsChain dom n [n]
  | step (n p : Nat) (L : List Nat) (hp : lookupA dom.parents n = some p)
      (hL : IsChain dom p L) : IsChain dom n (n :: L)

/-- The responder `register` builds when it appends a new binding to a state
whose closure counter is `s.ridCounter`. -/
def freshResponder (s : EvState) (u : Nat) (eventName : String) (handler : Nat) :
    Responder :=
  { rid := s.ridCounter, uid := u, eventName := eventName, handler := handler }

/-- The registry entry after `register` appends a fresh binding for
(eventName, handler) to the entry of uid `u` (seeded with the element when
absent). -/
def entryAfter (s : EvState) (u element : Nat) (eventName : String) (handler : Nat) :
    RegEntry :=
  let reg := (lookupA s.cache u).getD { element := element, events := [] }
  let bucket := (lookupA reg.events eventName).getD []
  { reg with
    events := putA reg.events eventName
      (bucket ++ [{ responder := freshResponder s u eventName handler,
                    handler := handler }]) }

/-- The state `observe` produces when it actually registers a new binding for
a node whose uid is already resolved to `u`: the cache entry gains the
binding, the closure counter advances, and the platform listener list for
the actual event name gains the fresh responder. -/
def observeExpected (dom : Dom) (s : EvState) (element : Nat) (eventName : String)
    (handler : Nat) (u : Nat) : EvState :=
  { s with
    cache := putA s.cache u (entryAfter s u element eventName handler),
    ridCounter := s.ridCounter + 1,
    listeners := putA s.listeners (element, actualEventName eventName)
      (listenersAt s element (actualEventName eventName) ++
        [freshResponder s u eventName handler]) }

/-- The handlers a dispatch trace invoked, in order (contexts dropped). -/
def invokedH (tr : List (Nat × Responder × RespResult)) : List Nat :=
  (invokedHandlers tr).map Prod.fst

/-- A registry entry with at least one bucket and no empty bucket — the shape
every live `Event.cache` entry keeps. -/
def entryClean (e : RegEntry) : Prop :=
  e.events ≠ [] ∧ ∀ p ∈ e.events, p.2 ≠ []

/-- Every cache entry is clean (holds at least one binding). -/
def cacheClean (s : EvState) : Prop :=
  ∀ q ∈ s.cache, entryClean q.2

/-- The bucket of bindings stored in the cache under a uid and event name. -/
def bucketAt (s : EvState) (u : Nat) (eventName : String) : List Binding :=
  match lookupA s.cache u with
  | some entry => (lookupA entry.events eventName).getD []
  | none => []

/-- The node's uid is already assigned: `getUniqueElementID` returns it
without touching the state. -/
def uidResolved (dom : Dom) (s : EvState) (element u : Nat) : Prop :=
  getUniqueElementID dom s element = (u, s)

/-- A small concrete host environment used to instantiate theorems: no
parent edges, every node an element, no selector matches. -/
def sampleDom : Dom :=
  { window := 100, document := 99, documentElement := 98, parents := [],
    matchesSel := fun _ _ => false, matchesCoerced := fun _ _ => false,
    isElement := fun _ => true, isTextNode := fun _ => false,
    tagName := fun _ => none, inputType := fun _ => none,
    createEventSupported := true, docDispatchSupported := true }

/-- A concrete host environment with a chain 1 → 2 → 3 (child to parent) in
which only node 3 matches the selector "s". -/
def chainDom : Dom :=
  { sampleDom with
    parents := [(1, 2), (2, 3)],
    matchesSel := fun n sel => n == 3 && sel == "s" }

/-! ### Lemmas about the association-list helpers -/

theorem lookupA_append_of_none {α β : Type} [DecidableEq α] {l₁ : List (α × β)}
    {a : α} (l₂ : List (α × β)) (h : lookupA l₁ a = none) :
    lookupA (l₁ ++ l₂) a = lookupA l₂ a := by
  induction l₁ with
  | nil => rfl
  | cons p rest ih =>
    simp only [lookupA, List.cons_append] at h ⊢
    split at h
    · exact absurd h (by simp)
    · simpa [*] using ih h

theorem lookupA_append_of_some {α β : Type} [DecidableEq α] {l₁ : List (α × β)}
    {a : α} {v : β} (l₂ : List (α × β)) (h : lookupA l₁ a = some v) :
    lookupA (l₁ ++ l₂) a = some v := by
  induction l₁ with
  | nil => simp [lookupA] at h
  | cons p rest ih =>
    simp only [lookupA, List.cons_append] at h ⊢
    split at h <;> split <;> simp_all [ih]

theorem lookupA_setA_self {α β : Type} [DecidableEq α] {l : List (α × β)} {a : α}
    (v : β) (h : (lookupA l a).isSome) : lookupA (setA l a v) a = some v := by
  induction l with
  | nil => simp [lookupA] at h
  | cons p rest ih =>
    simp only [lookupA, setA] at h ⊢
    by_cases hpa : p.1 = a
    · simp [hpa, lookupA]
    · simp only [hpa, if_false, lookupA] at h
      simp only [hpa, if_false, lookupA]
      exact ih h

theorem lookupA_setA_ne {α β : Type} [DecidableEq α] {l : List (α × β)} {a b : α}
    (v : β) (h : a ≠ b) : lookupA (setA l a v) b = lookupA l b := by
  induction l with
  | nil => rfl
  | cons p rest ih =>
    simp only [lookupA, setA]
    by_cases hpa : p.1 = a
    · simp [hpa, lookupA, h, Ne.symm h]
    · simp only [hpa, if_false, lookupA]
      split <;> simp [ih]

theorem setA_self {α β : Type} [DecidableEq α] {l : List (α × β)} {a : α} {v : β}
    (h : lookupA l a = some v) : setA l a v = l := by
  induction l with
  | nil => rfl
  | cons p rest ih =>
    simp only [lookupA] at h
    simp only [setA]
    split at h
    · rename_i hpa
      cases h
      simp only [hpa, if_true]
      exact congrArg (· :: rest) (Prod.ext hpa.symm rfl)
    · rename_i hpa
      simp [hpa, ih h]

theorem setA_append_of_none {α β : Type} [DecidableEq α] {l : List (α × β)} {a : α}
    (v w : β) (h : lookupA l a = none) : setA (l ++ [(a, v)]) a w = l ++ [(a, w)] := by
  induction l with
  | nil => simp [setA]
  | cons p rest ih =>
    simp only [lookupA] at h
    split at h
    · exact absurd h (by simp)
    · rename_i hpa
      simp [setA, hpa, ih h]

theorem lookupA_putA_self {α β : Type} [DecidableEq α] (l : List (α × β)) (a : α)
    (v : β) : lookupA (putA l a v) a = some v := by
  unfold putA
  split
  · exact lookupA_setA_self v (by assumption)
  · rename_i h
    rw [lookupA_append_of_none _ (by simpa using h)]
    simp [lookupA]

theorem lookupA_putA_ne {α β : Type} [DecidableEq α] (l : List (α × β)) {a b : α}
    (v : β) (h : a ≠ b) : lookupA (putA l a v) b = lookupA l b := by
  unfold putA
  split
  · exact lookupA_setA_ne v h
  · cases hb : lookupA l b with
    | some w => exact lookupA_append_of_some _ hb
    | none => rw [lookupA_append_of_none _ hb]; simp [lookupA, h]

theorem putA_of_none {α β : Type} [DecidableEq α] {l : List (α × β)} {a : α}
    (v : β) (h : lookupA l a = none) : putA l a v = l ++ [(a, v)] := by
  simp [putA, h]

theorem putA_of_some {α β : Type} [DecidableEq α] {l : List (α × β)} {a : α} {w : β}
    (v : β) (h : lookupA l a = some w) : putA l a v = setA l a v := by
  simp [putA, h]

theorem mem_setA {α β : Type} [DecidableEq α] {l : List (α × β)} {a : α} {v : β}
    {q : α × β} (h : q ∈ setA l a v) : q ∈ l ∨ q = (a, v) := by
  induction l with
  | nil => simp [setA] at h
  | cons p rest ih =>
    simp only [setA] at h
    split at h
    · rcases List.mem_cons.1 h with h | h
      · exact Or.inr h
      · exact Or.inl (List.mem_cons_of_mem _ h)
    · rcases List.mem_cons.1 h with h | h
      · exact Or.inl (h ▸ List.mem_cons_self _ _)
      · rcases ih h with h | h
        · exact Or.inl (List.mem_cons_of_mem _ h)
        · exact Or.inr h

theorem mem_putA {α β : Type} [DecidableEq α] {l : List (α × β)} {a : α} {v : β}
    {q : α × β} (h : q ∈ putA l a v) : q ∈ l ∨ q = (a, v) := by
  unfold putA at h
  split at h
  · exact mem_setA h
  · rcases List.mem_append.1 h with h | h
    · exact Or.inl h
    · simp at h
      exact Or.inr (by simp [h])

theorem mem_eraseA {α β : Type} [DecidableEq α] {l : List (α × β)} {a : α}
    {q : α × β} (h : q ∈ eraseA l a) : q ∈ l := by
  induction l with
  | nil => simpa [eraseA] using h
  | cons p rest ih =>
    simp only [eraseA] at h
    split at h
    · exact List.mem_cons_of_mem _ h
    · rcases List.mem_cons.1 h with h | h
      · exact h ▸ List.mem_cons_self _ _
      · exact List.mem_cons_of_mem _ (ih h)

theorem lookupA_mem {α β : Type} [DecidableEq α] {l : List (α × β)} {a : α} {v : β}
    (h : lookupA l a = some v) : (a, v) ∈ l := by
  induction l with
  | nil => simp [lookupA] at h
  | cons p rest ih =>
    simp only [lookupA] at h
    split at h
    · rename_i hpa
      injection h with hv
      subst hpa
      subst hv
      simp
    · exact List.mem_cons_of_mem _ (ih h)

theorem lookupA_eraseA_ne {α β : Type} [DecidableEq α] {l : List (α × β)} {a b : α}
    (h : a ≠ b) : lookupA (eraseA l a) b = lookupA l b := by
  induction l with
  | nil => rfl
  | cons p rest ih =>
    simp only [eraseA, lookupA]
    by_cases hpa : p.1 = a
    · simp [hpa, lookupA, h, Ne.symm h]
    · simp only [hpa, if_false, lookupA]
      split <;> simp [ih]

theorem eraseA_setA {α β : Type} [DecidableEq α] (l : List (α × β)) (a : α) (v : β) :
    eraseA (setA l a v) a = eraseA l a := by
  induction l with
  | nil => rfl
  | cons p rest ih =>
    simp only [setA, eraseA]
    by_cases hpa : p.1 = a
    · simp [hpa, eraseA]
    · simp [hpa, eraseA, ih]

theorem eraseA_append_of_none {α β : Type} [DecidableEq α] {l : List (α × β)} {a : α}
    (v : β) (h : lookupA l a = none) : eraseA (l ++ [(a, v)]) a = l := by
  induction l with
  | nil => simp [eraseA]
  | cons p rest ih =>
    simp only [lookupA] at h
    split at h
    · exact absurd h (by simp)
    · rename_i hpa
      simp [eraseA, hpa, ih h]

theorem length_setA {α β : Type} [DecidableEq α] (l : List (α × β)) (a : α) (v : β) :
    (setA l a v).length = l.length := by
  induction l with
  | nil => rfl
  | cons p rest ih =>
    simp only [setA]
    split <;> simp [ih]

/-! ### Behaviour of the identity registry -/

theorem guid_cache (dom : Dom) (s : EvState) (n : Nat) :
    ((getUniqueElementID dom s n).2).cache = s.cache := by
  unfold getUniqueElementID
  split
  · rfl
  · split <;> rfl

theorem guid_listeners (dom : Dom) (s : EvState) (n : Nat) :
    ((getUniqueElementID dom s n).2).listeners = s.listeners := by
  unfold getUniqueElementID
  split
  · rfl
  · split <;> rfl

theorem guid_ridCounter (dom : Dom) (s : EvState) (n : Nat) :
    ((getUniqueElementID dom s n).2).ridCounter = s.ridCounter := by
  unfold getUniqueElementID
  split
  · rfl
  · split <;> rfl

theorem guid_idem (dom : Dom) (s : EvState) (n : Nat) :
    getUniqueElementID dom ((getUniqueElementID dom s n).2) n =
      ((getUniqueElementID dom s n).1, (getUniqueElementID dom s n).2) := by
  unfold getUniqueElementID
  by_cases hw : n = dom.window
  · simp [hw]
  · simp only [hw, if_false]
    cases hl : lookupA s.uids n with
    | some u => simp [hl]
    | none =>
      simp only [hl]
      rw [lookupA_append_of_none _ hl]
      simp [lookupA]

theorem uidResolved_of_uids_eq {dom : Dom} {s₁ s₂ : EvState} {n u : Nat}
    (h : uidResolved dom s₁ n u) (huids : s₂.uids = s₁.uids) :
    uidResolved dom s₂ n u := by
  unfold uidResolved getUniqueElementID at h ⊢
  by_cases hw : n = dom.window
  · simp only [hw, if_true] at h ⊢
    rw [Prod.mk.injEq] at h
    simp [h.1]
  · simp only [hw, if_false] at h ⊢
    cases hl : lookupA s₁.uids n with
    | some v =>
      simp only [hl, Prod.mk.injEq] at h
      simp [huids, hl, h.1]
    | none =>
      simp only [hl] at h
      have := congrArg (fun q : Nat × EvState => q.2.uids.length) h
      simp at this

theorem uidResolved_guid (dom : Dom) (s : EvState) (n : Nat) :
    uidResolved dom ((getUniqueElementID dom s n).2) n ((getUniqueElementID dom s n).1) := by
  unfold uidResolved
  rw [guid_idem]

/-- Characterization of `getOrCreateRegistryFor` at a node whose uid is
already resolved: it returns the stored entry, or seeds a fresh one. -/
theorem getOrCreate_resolved {dom : Dom} {s : EvState} {n u : Nat}
    (h : uidResolved dom s n u) :
    getOrCreateRegistryFor dom s n =
      (match lookupA s.cache u with
       | some reg => (u, reg, s)
       | none =>
         (u, { element := n, events := [] },
          { s with cache := s.cache ++ [(u, { element := n, events := [] })] })) := by
  unfold getOrCreateRegistryFor
  rw [show getUniqueElementID dom s n = (u, s) from h]

/-- Case analysis of `getOrCreateRegistryFor` on an arbitrary state. -/
theorem getOrCreate_cases (dom : Dom) (s : EvState) (n : Nat) :
    ∃ u reg s', getOrCreateRegistryFor dom s n = (u, reg, s') ∧
      s'.listeners = s.listeners ∧ s'.ridCounter = s.ridCounter ∧
      uidResolved dom s' n u ∧
      ((lookupA s.cache u = some reg ∧ s'.cache = s.cache) ∨
       (lookupA s.cache u = none ∧ reg = { element := n, events := [] } ∧
        s'.cache = s.cache ++ [(u, reg)])) := by
  unfold getOrCreateRegistryFor
  rcases hg : getUniqueElementID dom s n with ⟨u, s₁⟩
  have hc : s₁.cache = s.cache := by
    have := guid_cache dom s n; rw [hg] at this; exact this
  have hl : s₁.listeners = s.listeners := by
    have := guid_listeners dom s n; rw [hg] at this; exact this
  have hr : s₁.ridCounter = s.ridCounter := by
    have := guid_ridCounter dom s n; rw [hg] at this; exact this
  have hres : uidResolved dom s₁ n u := by
    have := uidResolved_guid dom s n; rw [hg] at this; exact this
  cases hcu : lookupA s₁.cache u with
  | some reg =>
    exact ⟨u, reg, s₁, by simp [hcu], hl, hr, hres, Or.inl ⟨hc ▸ hcu, hc⟩⟩
  | none =>
    refine ⟨u, { element := n, events := [] },
      { s₁ with cache := s₁.cache ++ [(u, { element := n, events := [] })] },
      by simp [hcu], hl, hr, ?_, Or.inr ⟨hc ▸ hcu, rfl, by rw [hc]⟩⟩
    exact uidResolved_of_uids_eq hres rfl

/-! ### Preservation of the clean-cache invariant -/

theorem entryClean_of_lookup {s : EvState} (hs : cacheClean s) {u : Nat} {reg : RegEntry}
    (h : lookupA s.cache u = some reg) : entryClean reg :=
  hs (u, reg) (lookupA_mem h)

theorem cacheClean_setA_list {l : List (Nat × RegEntry)} {u : Nat} {reg : RegEntry}
    (hl : ∀ q ∈ l, entryClean q.2) (hreg : entryClean reg) :
    ∀ q ∈ setA l u reg, entryClean q.2 := by
  intro q hq
  rcases mem_setA hq with h | h
  · exact hl q h
  · rw [h]; exact hreg

theorem cacheClean_append_list {l : List (Nat × RegEntry)} {u : Nat} {reg : RegEntry}
    (hl : ∀ q ∈ l, entryClean q.2) (hreg : entryClean reg) :
    ∀ q ∈ l ++ [(u, reg)], entryClean q.2 := by
  intro q hq
  rcases List.mem_append.1 hq with h | h
  · exact hl q h
  · simp at h; rw [h]; exact hreg

theorem cacheClean_register (dom : Dom) (s : EvState) (n : Nat) (e : String) (hd : Nat)
    (hs : cacheClean s) : cacheClean (register dom s n e hd).2 := by
  obtain ⟨u, reg, s', hg, hli, hrc, hres, hcase⟩ := getOrCreate_cases dom s n
  unfold register
  rw [hg]
  dsimp only
  rw [show getUniqueElementID dom s' n = (u, s') from hres]
  rcases hcase with ⟨hlook, hcache⟩ | ⟨hnone, hregeq, hcache⟩
  · -- the entry was already in the cache and is clean
    have hregc : entryClean reg := entryClean_of_lookup hs hlook
    by_cases hb : (lookupA reg.events e).isSome
    · obtain ⟨bk, hbk⟩ := Option.isSome_iff_exists.1 hb
      simp only [hbk, Option.isSome_some, eq_self_iff_true, if_true, Option.getD_some]
      by_cases hdup : (bk.any fun x => decide (x.handler = hd)) = true
      · rw [if_pos hdup]
        intro q hq
        simp only [writeBack] at hq
        rw [hcache] at hq
        exact cacheClean_setA_list hs hregc q hq
      · rw [if_neg hdup]
        intro q hq
        simp only [writeBack, createResponder] at hq
        rw [hcache] at hq
        refine cacheClean_setA_list hs ?_ q hq
        constructor
        · intro hev
          have := congrArg List.length hev
          rw [length_setA] at this
          exact hregc.1 (List.length_eq_zero.1 this)
        · intro p hp
          rcases mem_setA hp with h | h
          · exact hregc.2 p h
          · rw [h]; simp
    · rw [Option.not_isSome_iff_eq_none] at hb
      have hbk : lookupA (reg.events ++ [(e, [])]) e = some [] := by
        rw [lookupA_append_of_none _ hb]; simp [lookupA]
      simp only [hb, Option.isSome_none, Bool.false_eq_true, if_false, hbk,
        Option.getD_some, List.any_nil]
      simp only [List.nil_append]
      intro q hq
      simp only [writeBack, createResponder] at hq
      rw [hcache] at hq
      refine cacheClean_setA_list hs ?_ q hq
      constructor
      · rw [setA_append_of_none _ _ hb]
        simp
      · intro p hp
        rw [setA_append_of_none _ _ hb] at hp
        rcases List.mem_append.1 hp with h | h
        · exact hregc.2 p h
        · simp at h; rw [h]; simp
  · -- a fresh entry was seeded; its (empty) bucket is replaced by a singleton
    have hb : lookupA reg.events e = none := by rw [hregeq]; simp [lookupA]
    have hbk : lookupA (reg.events ++ [(e, [])]) e = some [] := by
      rw [lookupA_append_of_none _ hb]; simp [lookupA]
    simp only [hb, Option.isSome_none, Bool.false_eq_true, if_false, hbk,
      Option.getD_some, List.any_nil]
    intro q hq
    simp only [writeBack, createResponder] at hq
    rw [hcache] at hq
    rw [setA_append_of_none _ _ hnone] at hq
    refine cacheClean_append_list hs ?_ q hq
    constructor
    · rw [setA_append_of_none _ _ hb]
      simp [hregeq]
    · intro p hp
      rw [setA_append_of_none _ _ hb] at hp
      rw [hregeq] at hp
      simp at hp
      rw [hp]
      simp

theorem destroy_resolved {dom : Dom} {s : EvState} {n u : Nat}
    (h : uidResolved dom s n u) :
    destroyRegistryForElement dom s n = { s with cache := eraseA s.cache u } := by
  unfold destroyRegistryForElement
  rw [show getUniqueElementID dom s n = (u, s) from h]

theorem cacheClean_unregister (dom : Dom) (s : EvState) (n : Nat) (e : String) (hd : Nat)
    (hs : cacheClean s) : cacheClean (unregister dom s n e hd).2 := by
  obtain ⟨u, reg, s', hg, hli, hrc, hres, hcase⟩ := getOrCreate_cases dom s n
  unfold unregister
  rw [hg]
  dsimp only
  have hresW : uidResolved dom (writeBack s' u reg) n u :=
    uidResolved_of_uids_eq hres rfl
  cases hbk : lookupA reg.events e with
  | none =>
    dsimp only
    rw [destroy_resolved hresW]
    by_cases hemp : reg.events.isEmpty
    · simp only [hemp, if_true]
      intro q hq
      simp only [writeBack] at hq
      rcases hcase with ⟨hlook, hcache⟩ | ⟨hnone, hregeq, hcache⟩
      · rw [hcache, eraseA_setA] at hq
        exact hs q (mem_eraseA hq)
      · rw [hcache, setA_append_of_none _ _ hnone,
          eraseA_append_of_none _ hnone] at hq
        exact hs q hq
    · simp only [hemp, if_false]
      intro q hq
      simp only [writeBack] at hq
      rcases hcase with ⟨hlook, hcache⟩ | ⟨hnone, hregeq, hcache⟩
      · rw [hcache] at hq
        exact cacheClean_setA_list hs (entryClean_of_lookup hs hlook) q hq
      · rw [hregeq] at hemp
        simp at hemp
  | some entries =>
    -- the fresh-entry case is impossible: a fresh entry has no buckets
    rcases hcase with ⟨hlook, hcache⟩ | ⟨hnone, hregeq, hcache⟩
    · have hregc : entryClean reg := entryClean_of_lookup hs hlook
      have hresW2 : uidResolved dom
          (writeBack s' u { element := reg.element, events := eraseA reg.events e }) n u :=
        uidResolved_of_uids_eq hres rfl
      dsimp only
      rw [destroy_resolved hresW2]
      by_cases hemp :
          (match entries.reverse.find? (fun x : Binding => decide (x.handler = hd)) with
            | some entry => entries.erase entry
            | none => entries).isEmpty
      · rw [if_pos hemp]
        dsimp only
        by_cases hemp2 : (eraseA reg.events e).isEmpty
        · rw [if_pos hemp2]
          intro q hq
          simp only [writeBack] at hq
          rw [hcache, eraseA_setA] at hq
          exact hs q (mem_eraseA hq)
        · rw [if_neg hemp2]
          intro q hq
          simp only [writeBack] at hq
          rw [hcache] at hq
          refine cacheClean_setA_list hs ?_ q hq
          constructor
          · intro hev
            exact hemp2 (by rw [show eraseA reg.events e = [] from hev]; rfl)
          · intro p hp
            exact hregc.2 p (mem_eraseA hp)
      · rw [if_neg hemp]
        intro q hq
        simp only [writeBack] at hq
        rw [hcache] at hq
        refine cacheClean_setA_list hs ?_ q hq
        constructor
        · intro hev
          have := congrArg List.length hev
          rw [length_setA] at this
          exact hregc.1 (List.length_eq_zero.1 this)
        · intro p hp
          rcases mem_setA hp with h | h
          · exact hregc.2 p h
          · rw [h]
            simp only [ne_eq]
            intro habs
            rw [habs] at hemp
            simp at hemp
    · rw [hregeq] at hbk
      simp [lookupA] at hbk

theorem addEventListener_cache (s : EvState) (n : Nat) (ty : String) (r : Responder) :
    (addEventListener s n ty r).cache = s.cache := by
  simp only [addEventListener]
  split <;> rfl

theorem removeEventListener_cache (s : EvState) (n : Nat) (ty : String) (r : Responder) :
    (removeEventListener s n ty r).cache = s.cache := by
  unfold removeEventListener
  split <;> rfl

theorem removeEvent_cache (s : EvState) (n : Nat) (e : String) (r : Responder) :
    (removeEvent s n e r).cache = s.cache := by
  unfold removeEvent
  exact removeEventListener_cache ..

theorem removeEventListener_uids (s : EvState) (n : Nat) (ty : String) (r : Responder) :
    (removeEventListener s n ty r).uids = s.uids := by
  unfold removeEventListener
  split <;> rfl

theorem removeEvent_uids (s : EvState) (n : Nat) (e : String) (r : Responder) :
    (removeEvent s n e r).uids = s.uids := by
  unfold removeEvent
  exact removeEventListener_uids ..

theorem foldl_cache_eq {β : Type} (f : EvState → β → EvState)
    (hf : ∀ s b, (f s b).cache = s.cache) :
    ∀ (l : List β) (s : EvState), (l.foldl f s).cache = s.cache := by
  intro l
  induction l with
  | nil => intro s; rfl
  | cons b rest ih => intro s; rw [List.foldl_cons, ih, hf]

theorem foldl_uids_eq {β : Type} (f : EvState → β → EvState)
    (hf : ∀ s b, (f s b).uids = s.uids) :
    ∀ (l : List β) (s : EvState), (l.foldl f s).uids = s.uids := by
  intro l
  induction l with
  | nil => intro s; rfl
  | cons b rest ih => intro s; rw [List.foldl_cons, ih, hf]

theorem cacheClean_of_cache_eq {s₁ s₂ : EvState} (h : s₁.cache = s₂.cache)
    (hs : cacheClean s₂) : cacheClean s₁ := by
  intro q hq
  exact hs q (h ▸ hq)

theorem cacheClean_stopObservingEventName (dom : Dom) (s : EvState) (n : Nat)
    (e : String) (hs : cacheClean s) : cacheClean (stopObservingEventName dom s n e) := by
  obtain ⟨u, reg, s', hg, hli, hrc, hres, hcase⟩ := getOrCreate_cases dom s n
  unfold stopObservingEventName
  rw [hg]
  dsimp only
  cases hbk : lookupA reg.events e with
  | some entries =>
    rcases hcase with ⟨hlook, hcache⟩ | ⟨hnone, hregeq, hcache⟩
    · have hregc : entryClean reg := entryClean_of_lookup hs hlook
      have hfcache :
          ∀ (l : List Binding) (st : EvState),
            (l.foldl (fun (st : EvState) (b : Binding) =>
              removeEvent st n e b.responder) st).cache = st.cache :=
        fun l st => foldl_cache_eq _ (fun st b => removeEvent_cache ..) l st
      have hfuids :
          ∀ (l : List Binding) (st : EvState),
            (l.foldl (fun (st : EvState) (b : Binding) =>
              removeEvent st n e b.responder) st).uids = st.uids :=
        fun l st => foldl_uids_eq _ (fun st b => removeEvent_uids ..) l st
      by_cases hemp : (eraseA reg.events e).isEmpty
      · rw [if_pos hemp]
        have hresF : uidResolved dom
            (entries.reverse.foldl (fun (st : EvState) (b : Binding) =>
              removeEvent st n e b.responder)
              (writeBack s' u { element := reg.element, events := eraseA reg.events e })) n u :=
          uidResolved_of_uids_eq hres (by rw [hfuids]; rfl)
        rw [destroy_resolved hresF]
        intro q hq
        dsimp only at hq
        rw [hfcache] at hq
        simp only [writeBack] at hq
        rw [hcache, eraseA_setA] at hq
        exact hs q (mem_eraseA hq)
      · rw [if_neg hemp]
        intro q hq
        rw [hfcache] at hq
        simp only [writeBack] at hq
        rw [hcache] at hq
        refine cacheClean_setA_list hs ?_ q hq
        constructor
        · intro hev
          exact hemp (by rw [show eraseA reg.events e = [] from hev]; rfl)
        · intro p hp
          exact hregc.2 p (mem_eraseA hp)
    · rw [hregeq] at hbk
      simp [lookupA] at hbk
  | none =>
    have hresW : uidResolved dom (writeBack s' u reg) n u :=
      uidResolved_of_uids_eq hres rfl
    by_cases hemp : reg.events.isEmpty
    · rw [if_pos hemp]
      rw [destroy_resolved hresW]
      intro q hq
      simp only [writeBack] at hq
      rcases hcase with ⟨hlook, hcache⟩ | ⟨hnone, hregeq, hcache⟩
      · rw [hcache, eraseA_setA] at hq
        exact hs q (mem_eraseA hq)
      · rw [hcache, setA_append_of_none _ _ hnone, eraseA_append_of_none _ hnone] at hq
        exact hs q hq
    · rw [if_neg hemp]
      intro q hq
      simp only [writeBack] at hq
      rcases hcase with ⟨hlook, hcache⟩ | ⟨hnone, hregeq, hcache⟩
      · rw [hcache] at hq
        exact cacheClean_setA_list hs (entryClean_of_lookup hs hlook) q hq
      · rw [hregeq] at hemp
        simp at hemp

theorem cacheClean_stopObservingElement (dom : Dom) (s : EvState) (n : Nat)
    (hs : cacheClean s) : cacheClean (stopObservingElement dom s n) := by
  unfold stopObservingElement
  rcases hg : getUniqueElementID dom s n with ⟨u, s₁⟩
  have hc : s₁.cache = s.cache := by
    have := guid_cache dom s n; rw [hg] at this; exact this
  dsimp only
  cases hcu : lookupA s₁.cache u with
  | none => exact cacheClean_of_cache_eq hc hs
  | some registry =>
    intro q hq
    rw [foldl_cache_eq _ ?_ registry.events] at hq
    · dsimp only at hq
      rw [hc] at hq
      exact hs q (mem_eraseA hq)
    · intro st p
      exact foldl_cache_eq _ (fun st b => removeEvent_cache ..) p.2.reverse st

theorem cacheClean_observe (dom : Dom) (s : EvState) (n : Nat) (e : String) (hd : Nat)
    (hs : cacheClean s) : cacheClean (observe dom s n e hd).2 := by
  unfold observe
  rcases hr : register dom s n e hd with ⟨entry?, s₁⟩
  have h₁ : cacheClean s₁ := by
    have := cacheClean_register dom s n e hd hs; rw [hr] at this; exact this
  cases entry? with
  | none => exact h₁
  | some entry =>
    exact cacheClean_of_cache_eq (addEventListener_cache ..) h₁

theorem cacheClean_stopObserving (dom : Dom) (s : EvState) (n : Nat)
    (e : Option String) (hd : Option Nat) (hs : cacheClean s) :
    cacheClean (stopObserving dom s n e hd).2 := by
  unfold stopObserving
  by_cases h1 : (!e.isSome && !hd.isSome) = true
  · rw [if_pos h1]
    exact cacheClean_stopObservingElement dom s n hs
  · rw [if_neg h1]
    by_cases h2 : (!hd.isSome) = true
    · rw [if_pos h2]
      exact cacheClean_stopObservingEventName dom s n _ hs
    · rw [if_neg h2]
      rcases hu : unregister dom s n (e.getD "undefined") (hd.getD 0) with ⟨entry?, s₁⟩
      have h₁ : cacheClean s₁ := by
        have := cacheClean_unregister dom s n (e.getD "undefined") (hd.getD 0) hs
        rw [hu] at this; exact this
      dsimp only
      cases entry? with
      | none => exact h₁
      | some entry => exact cacheClean_of_cache_eq (removeEvent_cache ..) h₁

theorem cacheClean_applyOp (dom : Dom) (s : EvState) (op : Op) (hs : cacheClean s) :
    cacheClean (applyOp dom s op) := by
  cases op with
  | observe n e h => exact cacheClean_observe dom s n e h hs
  | stopObserving n e h => exact cacheClean_stopObserving dom s n e h hs
  | fire n e m b => exact hs

theorem cacheClean_initial : cacheClean initialState := by
  intro q hq
  simp [initialState] at hq

theorem cacheClean_applyOps (dom : Dom) (ops : List Op) :
    cacheClean (applyOps dom ops) := by
  unfold applyOps
  have : ∀ (l : List Op) (s : EvState), cacheClean s → cacheClean (l.foldl (applyOp dom) s) := by
    intro l
    induction l with
    | nil => intro s hs; exact hs
    | cons op rest ih =>
      intro s hs
      rw [List.foldl_cons]
      exact ih _ (cacheClean_applyOp dom s op hs)
  exact this ops initialState cacheClean_initial

theorem hasEntry_eq_of_clean {s : EvState} (hs : cacheClean s) (u : Nat) :
    hasEntry s u = hasActiveBinding s u := by
  unfold hasEntry hasActiveBinding
  cases hcu : lookupA s.cache u with
  | none => rfl
  | some entry =>
    have hclean : entryClean entry := entryClean_of_lookup hs hcu
    simp only [Option.isSome_some]
    cases hev : entry.events with
    | nil => exact absurd hev hclean.1
    | cons p rest =>
      have hp : p.2 ≠ [] := hclean.2 p (hev ▸ List.mem_cons_self p rest)
      rw [List.any_cons]
      cases hpv : p.2 with
      | nil => exact absurd hpv hp
      | cons b bs => simp

/-! ### Characterization of observe on a fresh (node, event, handler) triple -/

theorem register_fresh {dom : Dom} {s : EvState} {n u : Nat} {e : String} {hd : Nat}
    (hres : uidResolved dom s n u)
    (hfree : ∀ b ∈ bucketAt s u e, b.handler ≠ hd) :
    register dom s n e hd =
      (some { responder := freshResponder s u e hd, handler := hd },
       { s with cache := putA s.cache u (entryAfter s u n e hd),
                ridCounter := s.ridCounter + 1 }) := by
  unfold register
  rw [getOrCreate_resolved hres]
  cases hcu : lookupA s.cache u with
  | none =>
    dsimp only
    simp only [lookupA, eq_self_iff_true, if_true, Option.isSome_none, Option.isSome_some,
      Option.getD_some, Bool.false_eq_true, if_false, List.nil_append, List.any_nil]
    rw [show getUniqueElementID dom
        { s with cache := s.cache ++ [(u, { element := n, events := [] })] } n =
        (u, { s with cache := s.cache ++ [(u, { element := n, events := [] })] }) from
      uidResolved_of_uids_eq hres rfl]
    simp only [createResponder, writeBack]
    rw [setA_append_of_none _ _ hcu]
    unfold entryAfter freshResponder
    rw [hcu]
    simp only [Option.getD_none, putA_of_none _ hcu]
    rw [show lookupA ([] : List (String × List Binding)) e = none from rfl]
    simp only [Option.getD_none, List.nil_append,
      putA_of_none _ (show lookupA ([] : List (String × List Binding)) e = none from rfl)]
    simp [setA]
  | some entry =>
    dsimp only
    simp only [bucketAt, hcu] at hfree
    cases hbk : lookupA entry.events e with
    | some bk =>
      rw [hbk] at hfree
      simp only [Option.getD_some] at hfree
      simp only [hbk, Option.isSome_some, if_true, Option.getD_some]
      have hany : (bk.any fun x => decide (x.handler = hd)) = false := by
        simp only [List.any_eq_false, decide_eq_true_eq]
        exact fun b hb => hfree b hb
      rw [hany]
      simp only [Bool.false_eq_true, if_false]
      rw [show getUniqueElementID dom s n = (u, s) from hres]
      simp only [createResponder, writeBack]
      unfold entryAfter freshResponder
      rw [hcu]
      simp only [Option.getD_some, hbk]
      rw [putA_of_some _ hcu, putA_of_some _ hbk]
    | none =>
      simp only [hbk, Option.isSome_none, Bool.false_eq_true, if_false]
      have hbk2 : lookupA (entry.events ++ [(e, [])]) e = some [] := by
        rw [lookupA_append_of_none _ hbk]; simp [lookupA]
      rw [hbk2]
      simp only [Option.getD_some, List.any_nil, Bool.false_eq_true, if_false]
      rw [show getUniqueElementID dom s n = (u, s) from hres]
      simp only [createResponder, writeBack]
      unfold entryAfter freshResponder
      rw [hcu]
      simp only [Option.getD_some, hbk, Option.getD_none, List.nil_append]
      rw [putA_of_some _ hcu, putA_of_none _ hbk, setA_append_of_none _ _ hbk]

theorem observe_fresh {dom : Dom} {s : EvState} {n u : Nat} {e : String} {hd : Nat}
    (hres : uidResolved dom s n u)
    (hfree : ∀ b ∈ bucketAt s u e, b.handler ≠ hd)
    (hlfree : freshResponder s u e hd ∉ listenersAt s n (actualEventName e)) :
    observe dom s n e hd = (n, observeExpected dom s n e hd u) := by
  have hlfree' : freshResponder s u e hd ∉
      (lookupA s.listeners (n, actualEventName e)).getD [] := hlfree
  unfold observe
  rw [register_fresh hres hfree]
  dsimp only
  unfold addEventListener listenersAt
  dsimp only
  rw [if_neg hlfree']
  unfold observeExpected listenersAt
  rfl

theorem observe_dup {dom : Dom} {s : EvState} {n u : Nat} {e : String} {hd : Nat}
    (hres : uidResolved dom s n u)
    (hdup : ∃ b ∈ bucketAt s u e, b.handler = hd) :
    observe dom s n e hd = (n, s) := by
  unfold observe register
  rw [getOrCreate_resolved hres]
  cases hcu : lookupA s.cache u with
  | none =>
    exfalso
    obtain ⟨b, hb, _⟩ := hdup
    simp [bucketAt, hcu] at hb
  | some entry =>
    dsimp only
    simp only [bucketAt, hcu] at hdup
    cases hbk : lookupA entry.events e with
    | none =>
      exfalso
      obtain ⟨b, hb, _⟩ := hdup
      rw [hbk] at hb
      simp at hb
    | some bk =>
      rw [hbk] at hdup
      simp only [Option.getD_some] at hdup
      simp only [hbk, Option.isSome_some, if_true, Option.getD_some]
      have hany : (bk.any fun x => decide (x.handler = hd)) = true := by
        simp only [List.any_eq_true, decide_eq_true_eq]
        obtain ⟨b, hb, hbh⟩ := hdup
        exact ⟨b, hb, hbh⟩
      rw [hany]
      simp only [if_true, writeBack]
      rw [setA_self hcu]

/-! ### More association-list and list lemmas -/

theorem setA_setA {α β : Type} [DecidableEq α] (l : List (α × β)) (a : α) (v w : β) :
    setA (setA l a v) a w = setA l a w := by
  induction l with
  | nil => rfl
  | cons p rest ih =>
    simp only [setA]
    by_cases hpa : p.1 = a
    · simp [hpa, setA]
    · simp [hpa, setA, ih]

theorem putA_then_setA {α β : Type} [DecidableEq α] (l : List (α × β)) (a : α) (v w : β) :
    setA (putA l a v) a w = putA l a w := by
  unfold putA
  cases hl : lookupA l a with
  | some x => simp only [hl, Option.isSome_some, if_true, setA_setA]
  | none =>
    simp only [hl, Option.isSome_none, Bool.false_eq_true, if_false]
    exact setA_append_of_none _ _ hl

theorem erase_append_singleton {α : Type} [DecidableEq α] {l : List α} {x : α}
    (h : x ∉ l) : (l ++ [x]).erase x = l := by
  induction l with
  | nil => simp
  | cons a rest ih =>
    have hax : ¬(a == x) = true := by
      simp only [beq_iff_eq]
      intro hax
      exact h (hax ▸ List.mem_cons_self a rest)
    rw [List.cons_append, List.erase_cons]
    simp only [hax, Bool.false_eq_true, if_false]
    rw [ih (fun hm => h (List.mem_cons_of_mem a hm))]

/-! ### Listener lists and responder invocation -/

theorem mem_listenersAt {s : EvState} {node : Nat} {ty : String} {r : Responder}
    (h : r ∈ listenersAt s node ty) :
    ∃ l, lookupA s.listeners (node, ty) = some l ∧ r ∈ l := by
  unfold listenersAt at h
  cases hl : lookupA s.listeners (node, ty) with
  | none => rw [hl] at h; simp at h
  | some l => rw [hl] at h; exact ⟨l, rfl, h⟩

theorem handler_ne_of_free {s : EvState} {H : Nat} (hl : listenersHandlerFree s H)
    {node : Nat} {ty : String} {r : Responder} (h : r ∈ listenersAt s node ty) :
    r.handler ≠ H := by
  obtain ⟨l, hlk, hr⟩ := mem_listenersAt h
  exact hl ((node, ty), l) (lookupA_mem hlk) r hr

theorem bucket_free_of_cacheFree {s : EvState} {H : Nat} (hc : cacheHandlerFree s H)
    (u : Nat) (e : String) : ∀ b ∈ bucketAt s u e, b.handler ≠ H := by
  intro b hb
  unfold bucketAt at hb
  cases hcu : lookupA s.cache u with
  | none => rw [hcu] at hb; simp at hb
  | some entry =>
    rw [hcu] at hb
    dsimp only at hb
    cases hbk : lookupA entry.events e with
    | none => rw [hbk] at hb; simp at hb
    | some bk =>
      rw [hbk] at hb
      simp only [Option.getD_some] at hb
      exact hc (u, entry) (lookupA_mem hcu) (e, bk) (lookupA_mem hbk) b hb

theorem fresh_not_mem_listeners {s' s : EvState} {H : Nat}
    (hl : listenersHandlerFree s' H) (u : Nat) (e : String) (n : Nat) (ty : String) :
    freshResponder s u e H ∉ listenersAt s' n ty := by
  intro hmem
  exact handler_ne_of_free hl hmem rfl

theorem cacheHandlerFree_of_eq {s₁ s₂ : EvState} {H : Nat} (h : s₁.cache = s₂.cache)
    (hc : cacheHandlerFree s₂ H) : cacheHandlerFree s₁ H := by
  intro q hq
  exact hc q (h ▸ hq)

theorem listenersHandlerFree_of_eq {s₁ s₂ : EvState} {H : Nat}
    (h : s₁.listeners = s₂.listeners) (hl : listenersHandlerFree s₂ H) :
    listenersHandlerFree s₁ H := by
  intro q hq
  exact hl q (h ▸ hq)

theorem runResponder_custom_match {s : EvState} {r : Responder} {ev : PEvent}
    (hc : isCustomEvent r.eventName = true) (htag : ev.eventName = some r.eventName) :
    runResponder s r ev = .invoked ((lookupA s.cache r.uid).map (·.element)) := by
  unfold runResponder runCustomResponder
  rw [if_pos hc, htag]
  simp

theorem runResponder_native_entry {s : EvState} {r : Responder} {ev : PEvent}
    {entry : RegEntry} (hc : ¬isCustomEvent r.eventName = true)
    (hce : lookupA s.cache r.uid = some entry) :
    runResponder s r ev = .invoked (some entry.element) := by
  unfold runResponder runNativeResponder
  rw [if_neg hc, hce]

/-! ### Structure of the dispatch trace -/

theorem invokedH_append (t₁ t₂ : List (Nat × Responder × RespResult)) :
    invokedH (t₁ ++ t₂) = invokedH t₁ ++ invokedH t₂ := by
  unfold invokedH invokedHandlers
  rw [List.filterMap_append, List.map_append]

theorem invokedH_flatMap (L : List Nat) (f : Nat → List (Nat × Responder × RespResult)) :
    invokedH (L.flatMap f) = L.flatMap (fun n => invokedH (f n)) := by
  induction L with
  | nil => rfl
  | cons a rest ih => rw [List.flatMap_cons, List.flatMap_cons, invokedH_append, ih]

theorem filter_flatMap (p : Nat → Bool) (L : List Nat) (f : Nat → List Nat) :
    (L.flatMap f).filter p = L.flatMap (fun n => (f n).filter p) := by
  induction L with
  | nil => rfl
  | cons a rest ih => rw [List.flatMap_cons, List.flatMap_cons, List.filter_append, ih]

theorem flatMap_nil_of_all {L : List Nat} {f : Nat → List Nat}
    (h : ∀ m ∈ L, f m = []) : L.flatMap f = [] := by
  induction L with
  | nil => rfl
  | cons a rest ih =>
    rw [List.flatMap_cons, h a (List.mem_cons_self a rest),
      ih (fun m hm => h m (List.mem_cons_of_mem a hm))]
    rfl

theorem flatMap_single {L : List Nat} {N : Nat} {c : List Nat} {f : Nat → List Nat}
    (h1 : L.count N = 1) (hN : f N = c) (hother : ∀ m, m ≠ N → f m = []) :
    L.flatMap f = c := by
  induction L with
  | nil => simp at h1
  | cons a rest ih =>
    rw [List.flatMap_cons]
    by_cases ha : a = N
    · subst ha
      have h1' : List.count a (a :: rest) = List.count a rest + 1 :=
        List.count_cons_self a rest
      have h0 : rest.count a = 0 := by
        unfold List.count at h1 h1' ⊢
        omega
      rw [hN, flatMap_nil_of_all ?_, List.append_nil]
      intro m hm
      by_cases hma : m = a
      · exact absurd (hma ▸ hm) (List.count_eq_zero.1 h0)
      · exact hother m hma
    · rw [hother a ha, List.nil_append]
      refine ih ?_
      have := List.count_cons_of_ne (fun hc : N = a => ha hc.symm) rest
      unfold List.count at this h1 ⊢
      omega

theorem not_invoked_of_free {s : EvState} {H : Nat} (hl : listenersHandlerFree s H)
    (dom : Dom) (ev : PEvent) : H ∉ invokedH (dispatchTrace dom s ev) := by
  intro hmem
  unfold dispatchTrace at hmem
  rw [invokedH_flatMap] at hmem
  rw [List.mem_flatMap] at hmem
  obtain ⟨node, _, hmem⟩ := hmem
  unfold invokedH invokedHandlers at hmem
  rw [List.mem_map] at hmem
  obtain ⟨q, hq, hqH⟩ := hmem
  rw [List.mem_filterMap] at hq
  obtain ⟨t, ht, hgt⟩ := hq
  rw [List.mem_map] at ht
  obtain ⟨r, hr, hrt⟩ := ht
  have hne : r.handler ≠ H := handler_ne_of_free hl hr
  subst hrt
  dsimp only at hgt
  cases hres : runResponder s r ev with
  | invoked ctx =>
    rw [hres] at hgt
    dsimp only at hgt
    injection hgt with hgt
    apply hne
    rw [← hqH, ← hgt]
  | skipped =>
    rw [hres] at hgt
    simp at hgt
  | errored =>
    rw [hres] at hgt
    simp at hgt

theorem not_invoked_dispatchEventName {s : EvState} {H : Nat}
    (hl : listenersHandlerFree s H) (dom : Dom) (N : Nat) (E : String) :
    H ∉ invokedH (dispatchEventName dom s N E) := by
  unfold dispatchEventName
  split
  · exact not_invoked_of_free hl dom _
  · exact not_invoked_of_free hl dom _

theorem getOrCreate_eq_guid (dom : Dom) (s : EvState) (n : Nat) :
    getOrCreateRegistryFor dom s n =
      getOrCreateRegistryFor dom ((getUniqueElementID dom s n).2) n := by
  conv_rhs => rw [getOrCreateRegistryFor]
  rw [guid_idem]
  rfl

theorem observe_eq_guid (dom : Dom) (s : EvState) (n : Nat) (e : String) (hd : Nat) :
    observe dom s n e hd = observe dom ((getUniqueElementID dom s n).2) n e hd := by
  unfold observe register
  rw [getOrCreate_eq_guid]

/-! ### Reading the state observe produced -/

theorem listenersAt_observeExpected_self (dom : Dom) (s : EvState) (n : Nat)
    (e : String) (hd u : Nat) :
    listenersAt (observeExpected dom s n e hd u) n (actualEventName e) =
      listenersAt s n (actualEventName e) ++ [freshResponder s u e hd] := by
  unfold observeExpected listenersAt
  dsimp only
  rw [lookupA_putA_self]
  rfl

theorem cache_observeExpected_self (dom : Dom) (s : EvState) (n : Nat)
    (e : String) (hd u : Nat) :
    lookupA (observeExpected dom s n e hd u).cache u = some (entryAfter s u n e hd) := by
  unfold observeExpected
  dsimp only
  exact lookupA_putA_self ..

theorem entryAfter_bucket (s : EvState) (u n : Nat) (e : String) (hd : Nat) :
    lookupA (entryAfter s u n e hd).events e =
      some (bucketAt s u e ++
        [{ responder := freshResponder s u e hd, handler := hd }]) := by
  unfold entryAfter bucketAt
  dsimp only
  cases hcu : lookupA s.cache u with
  | none =>
    dsimp only [Option.getD_none]
    rw [show lookupA ({ element := n, events := [] } : RegEntry).events e = none from rfl]
    dsimp only [Option.getD_none]
    exact lookupA_putA_self ..
  | some entry =>
    dsimp only [Option.getD_some]
    exact lookupA_putA_self ..

/-- The buckets left in an entry after the fresh binding's bucket is removed
(or put back without the fresh binding) hold no binding for the handler. -/
theorem entryAfter_events_free {s : EvState} {H : Nat} (hc : cacheHandlerFree s H)
    (u n : Nat) (e : String) :
    (∀ p ∈ eraseA (entryAfter s u n e H).events e, ∀ x ∈ p.2, x.handler ≠ H) ∧
    (∀ p ∈ setA (entryAfter s u n e H).events e (bucketAt s u e),
      ∀ x ∈ p.2, x.handler ≠ H) := by
  have hbfree := bucket_free_of_cacheFree hc u e
  unfold entryAfter bucketAt
  cases hcu : lookupA s.cache u with
  | none =>
    dsimp only [Option.getD_none]
    rw [show lookupA ({ element := n, events := [] } : RegEntry).events e = none from rfl]
    dsimp only [Option.getD_none]
    rw [putA_of_none _ (show lookupA ([] : List (String × List Binding)) e = none from rfl)]
    constructor
    · intro p hp
      simp [eraseA] at hp
    · intro p hp
      simp [setA] at hp
      intro x hx
      rw [hp] at hx
      simp at hx
  | some entry =>
    dsimp only [Option.getD_some]
    have hfree_entry : ∀ p ∈ entry.events, ∀ x ∈ p.2, x.handler ≠ H :=
      fun p hp x hx => hc (u, entry) (lookupA_mem hcu) p hp x hx
    cases hbk : lookupA entry.events e with
    | some bk =>
      dsimp only [Option.getD_some]
      rw [putA_of_some _ hbk]
      constructor
      · intro p hp
        rw [eraseA_setA] at hp
        exact hfree_entry p (mem_eraseA hp)
      · intro p hp
        rw [setA_setA] at hp
        rcases mem_setA hp with h | h
        · exact hfree_entry p h
        · rw [h]
          dsimp only
          intro x hx
          exact hfree_entry (e, bk) (lookupA_mem hbk) x hx
    | none =>
      dsimp only [Option.getD_none]
      rw [putA_of_none _ hbk]
      constructor
      · intro p hp
        rw [eraseA_append_of_none _ hbk] at hp
        exact hfree_entry p hp
      · intro p hp
        rw [setA_append_of_none _ _ hbk] at hp
        rcases List.mem_append.1 hp with h | h
        · exact hfree_entry p h
        · simp at h
          rw [h]
          dsimp only
          intro x hx
          simp at hx

/-- Running `unregister` on the state `observe` just produced removes exactly
the fresh binding: the returned binding is the fresh one, the resulting cache
holds no binding for the handler, and the listener lists are untouched. -/
theorem unregister_after_observe {dom : Dom} {s : EvState} {N u : Nat} {E : String}
    {H : Nat} (hres : uidResolved dom s N u) (hc : cacheHandlerFree s H) :
    ∃ s', unregister dom (observeExpected dom s N E H u) N E H =
        (some { responder := freshResponder s u E H, handler := H }, s') ∧
      cacheHandlerFree s' H ∧
      s'.listeners = (observeExpected dom s N E H u).listeners := by
  have hres1 : uidResolved dom (observeExpected dom s N E H u) N u :=
    uidResolved_of_uids_eq hres rfl
  have hbfree := bucket_free_of_cacheFree hc u E
  have hbnot : ({ responder := freshResponder s u E H, handler := H } : Binding) ∉
      bucketAt s u E := fun hm => hbfree _ hm rfl
  have hfreeE := entryAfter_events_free hc u N E
  unfold unregister
  rw [getOrCreate_resolved hres1, cache_observeExpected_self]
  dsimp only
  rw [entryAfter_bucket]
  dsimp only
  rw [List.reverse_append]
  rw [show (([{ responder := freshResponder s u E H, handler := H }] :
      List Binding)).reverse = [{ responder := freshResponder s u E H, handler := H }]
    from rfl]
  rw [List.singleton_append]
  rw [List.find?_cons_of_pos _ (by simp)]
  dsimp only
  rw [erase_append_singleton hbnot]
  by_cases hbe : (bucketAt s u E).isEmpty
  · rw [if_pos hbe]
    by_cases hde : (eraseA (entryAfter s u N E H).events E).isEmpty
    · rw [if_pos hde]
      have hresW : uidResolved dom
          (writeBack (observeExpected dom s N E H u) u
            { element := (entryAfter s u N E H).element,
              events := eraseA (entryAfter s u N E H).events E }) N u :=
        uidResolved_of_uids_eq hres1 rfl
      rw [destroy_resolved hresW]
      refine ⟨_, rfl, ?_, rfl⟩
      intro q hq
      dsimp only [writeBack] at hq
      rw [show (observeExpected dom s N E H u).cache =
          putA s.cache u (entryAfter s u N E H) from rfl] at hq
      rw [putA_then_setA] at hq
      rcases mem_putA (mem_eraseA hq) with h | h
      · exact hc q h
      · rw [h]
        dsimp only
        exact hfreeE.1
    · rw [if_neg hde]
      refine ⟨_, rfl, ?_, rfl⟩
      intro q hq
      dsimp only [writeBack] at hq
      rw [show (observeExpected dom s N E H u).cache =
          putA s.cache u (entryAfter s u N E H) from rfl] at hq
      rw [putA_then_setA] at hq
      rcases mem_putA hq with h | h
      · exact hc q h
      · rw [h]
        dsimp only
        exact hfreeE.1
  · rw [if_neg hbe]
    refine ⟨_, rfl, ?_, rfl⟩
    intro q hq
    dsimp only [writeBack] at hq
    rw [show (observeExpected dom s N E H u).cache =
        putA s.cache u (entryAfter s u N E H) from rfl] at hq
    rw [putA_then_setA] at hq
    rcases mem_putA hq with h | h
    · exact hc q h
    · rw [h]
      dsimp only
      exact hfreeE.2

/-- Detaching the fresh responder restores a handler-free listener table. -/
theorem removeEvent_after_observe {s s' : EvState} {N u : Nat} {E : String} {H : Nat}
    (hl : listenersHandlerFree s H)
    (heq : s'.listeners = putA s.listeners (N, actualEventName E)
      (listenersAt s N (actualEventName E) ++ [freshResponder s u E H])) :
    listenersHandlerFree (removeEvent s' N E (freshResponder s u E H)) H := by
  have hnm : freshResponder s u E H ∉ listenersAt s N (actualEventName E) :=
    fresh_not_mem_listeners hl u E N (actualEventName E)
  unfold removeEvent removeEventListener
  rw [heq, lookupA_putA_self]
  dsimp only
  rw [erase_append_singleton hnm, putA_then_setA]
  intro q hq
  dsimp only at hq
  rcases mem_putA hq with h | h
  · exact hl q h
  · rw [h]
    dsimp only
    intro r hr
    exact handler_ne_of_free hl hr

/-- Effect of `stopObserving(N, E, H)` right after the `observe` that
registered the fresh binding: both the registry and the platform listener
table are free of the handler again. -/
theorem stop_after_observe {dom : Dom} {s : EvState} {N u : Nat} {E : String} {H : Nat}
    (hres : uidResolved dom s N u)
    (hc : cacheHandlerFree s H) (hl : listenersHandlerFree s H) :
    cacheHandlerFree
      (stopObserving dom (observeExpected dom s N E H u) N (some E) (some H)).2 H ∧
    listenersHandlerFree
      (stopObserving dom (observeExpected dom s N E H u) N (some E) (some H)).2 H := by
  obtain ⟨s', hu, hc', hls⟩ := unregister_after_observe hres hc
  unfold stopObserving
  simp only [Option.isSome_some, Bool.not_true, Bool.and_self, Bool.false_eq_true,
    if_false, Option.getD_some]
  rw [hu]
  dsimp only
  constructor
  · exact cacheHandlerFree_of_eq (removeEvent_cache ..) hc'
  · refine removeEvent_after_observe hl ?_
    rw [hls]
    rfl

/-! ### Claim C2 -/

/-- Claim C2: after every sequence of observe / stopObserving / fire
operations from the load-time state, the event cache holds an entry for a
uid exactly when that uid still has at least one registered binding — the
entry is created by the first observe and destroyed by whichever removal
(single-handler unregister, per-event-name removal, or bulk removal) deletes
the last binding. -/
theorem claim2_entry_iff_active_binding (dom : Dom) (ops : List Op) (u : Nat) :
    hasEntry (applyOps dom ops) u = hasActiveBinding (applyOps dom ops) u :=
  hasEntry_eq_of_clean (cacheClean_applyOps dom ops) u

/-! ### Claim C3 -/

/-- Claim C3: on a state whose registry and platform listener table reference
the handler H nowhere, observe(N, E, H) followed by stopObserving(N, E, H)
leaves a state in which the registry holds no entry or bucket referencing H
(in particular none for N), the platform holds no listener for H, and
dispatching E on N does not invoke H. -/
theorem claim3_observe_stop_cancel (dom : Dom) (s : EvState) (N : Nat) (E : String)
    (H : Nat) (hc : cacheHandlerFree s H) (hl : listenersHandlerFree s H) :
    cacheHandlerFree
      (stopObserving dom (observe dom s N E H).2 N (some E) (some H)).2 H ∧
    listenersHandlerFree
      (stopObserving dom (observe dom s N E H).2 N (some E) (some H)).2 H ∧
    H ∉ invokedH (dispatchEventName dom
      (stopObserving dom (observe dom s N E H).2 N (some E) (some H)).2 N E) := by
  rcases hg : getUniqueElementID dom s N with ⟨u, s₀⟩
  have hcache : s₀.cache = s.cache := by
    have := guid_cache dom s N; rw [hg] at this; exact this
  have hlis : s₀.listeners = s.listeners := by
    have := guid_listeners dom s N; rw [hg] at this; exact this
  have hres₀ : uidResolved dom s₀ N u := by
    have := uidResolved_guid dom s N; rw [hg] at this; exact this
  have hc₀ : cacheHandlerFree s₀ H := cacheHandlerFree_of_eq hcache hc
  have hl₀ : listenersHandlerFree s₀ H := listenersHandlerFree_of_eq hlis hl
  have hobs : observe dom s N E H = (N, observeExpected dom s₀ N E H u) := by
    rw [observe_eq_guid dom s N E H, hg]
    exact observe_fresh hres₀ (bucket_free_of_cacheFree hc₀ u E)
      (fresh_not_mem_listeners hl₀ u E N (actualEventName E))
  rw [hobs]
  obtain ⟨ha, hb⟩ := stop_after_observe hres₀ hc₀ hl₀
  exact ⟨ha, hb, not_invoked_dispatchEventName hb dom N E⟩

/-- Witness for claim C3 at a concrete input. -/
theorem claim3_witness :
    cacheHandlerFree initialState 7 ∧ listenersHandlerFree initialState 7 ∧
    (cacheHandlerFree
      (stopObserving sampleDom (observe sampleDom initialState 5 "click" 7).2 5
        (some "click") (some 7)).2 7 ∧
    listenersHandlerFree
      (stopObserving sampleDom (observe sampleDom initialState 5 "click" 7).2 5
        (some "click") (some 7)).2 7 ∧
    7 ∉ invokedH (dispatchEventName sampleDom
      (stopObserving sampleDom (observe sampleDom initialState 5 "click" 7).2 5
        (some "click") (some 7)).2 5 "click")) :=
  ⟨by intro q hq; simp [initialState] at hq, by intro q hq; simp [initialState] at hq,
    claim3_observe_stop_cancel sampleDom initialState 5 "click" 7
      (by intro q hq; simp [initialState] at hq)
      (by intro q hq; simp [initialState] at hq)⟩

/-! ### Claim C4 support -/

theorem uidOf_of_resolved {dom : Dom} {s : EvState} {n u : Nat}
    (h : uidResolved dom s n u) : uidOf dom s n = some u := by
  unfold uidResolved getUniqueElementID at h
  unfold uidOf
  by_cases hw : n = dom.window
  · simp only [hw, if_true] at h ⊢
    rw [Prod.mk.injEq] at h
    rw [h.1]
  · simp only [hw, if_false] at h ⊢
    cases hl : lookupA s.uids n with
    | some v =>
      simp only [hl, Prod.mk.injEq] at h
      rw [h.1]
    | none =>
      simp only [hl] at h
      have := congrArg (fun q : Nat × EvState => q.2.uids.length) h
      simp at this

theorem bindingsFor_eq_bucketAt {dom : Dom} {s : EvState} {n u : Nat}
    (h : uidOf dom s n = some u) (e : String) :
    bindingsFor dom s n e = bucketAt s u e := by
  unfold bindingsFor bucketAt
  rw [h]
  dsimp only
  cases hcu : lookupA s.cache u <;> rfl

theorem bucketAt_observeExpected (dom : Dom) (s : EvState) (n : Nat) (e : String)
    (hd u : Nat) :
    bucketAt (observeExpected dom s n e hd u) u e =
      bucketAt s u e ++ [{ responder := freshResponder s u e hd, handler := hd }] := by
  unfold bucketAt
  rw [cache_observeExpected_self]
  dsimp only
  rw [entryAfter_bucket]
  rfl

theorem listenersAt_observeExpected_ne (dom : Dom) (s : EvState) (n : Nat)
    (e : String) (hd u : Nat) {m : Nat} {ty : String}
    (h : (n, actualEventName e) ≠ (m, ty)) :
    listenersAt (observeExpected dom s n e hd u) m ty = listenersAt s m ty := by
  unfold observeExpected listenersAt
  dsimp only
  rw [lookupA_putA_ne _ _ h]

theorem filter_handler_free {l : List Binding} {H : Nat} (h : ∀ b ∈ l, b.handler ≠ H) :
    l.filter (fun b => b.handler == H) = [] := by
  induction l with
  | nil => rfl
  | cons b rest ih =>
    rw [List.filter_cons]
    have hb : (b.handler == H) = false := by
      simp only [beq_eq_false_iff_ne]
      exact h b (List.mem_cons_self b rest)
    simp only [hb, Bool.false_eq_true, if_false]
    exact ih (fun x hx => h x (List.mem_cons_of_mem b hx))

theorem filter_invokedH_free {s' : EvState} {ev : PEvent} {rs : List Responder}
    {H : Nat} (node : Nat) (hfree : ∀ r ∈ rs, r.handler ≠ H) :
    (invokedH (rs.map (fun r => (node, r, runResponder s' r ev)))).filter
      (fun x => x == H) = [] := by
  induction rs with
  | nil => rfl
  | cons r rest ih =>
    have hr : (r.handler == H) = false := by
      simp only [beq_eq_false_iff_ne]
      exact hfree r (List.mem_cons_self r rest)
    have ihh := ih (fun x hx => hfree x (List.mem_cons_of_mem r hx))
    rw [List.map_cons]
    unfold invokedH invokedHandlers at ihh ⊢
    rw [List.filterMap_cons]
    cases hres : runResponder s' r ev with
    | invoked ctx =>
      dsimp only
      rw [List.map_cons, List.filter_cons]
      simp only [hr, Bool.false_eq_true, if_false]
      exact ihh
    | skipped => exact ihh
    | errored => exact ihh

theorem invokedH_single_invoked {s' : EvState} {ev : PEvent} {node : Nat}
    {r : Responder} {ctx : Option Nat} (h : runResponder s' r ev = .invoked ctx) :
    invokedH [(node, r, runResponder s' r ev)] = [r.handler] := by
  unfold invokedH invokedHandlers
  rw [h]
  rfl

/-- In the state `observe` just produced, dispatching an event of the actual
platform type through a path that visits the node exactly once invokes the
new handler exactly once (and, filtered to that handler, nothing else). -/
theorem trace_filter_after_observe {dom : Dom} {s : EvState} {N u H : Nat}
    {E : String} {ev : PEvent} (hl : listenersHandlerFree s H)
    (hty : ev.type = actualEventName E)
    (hinv : ∃ ctx, runResponder (observeExpected dom s N E H u)
      (freshResponder s u E H) ev = .invoked ctx)
    (hcnt : (dispatchPath dom ev).count N = 1) :
    (invokedH (dispatchTrace dom (observeExpected dom s N E H u) ev)).filter
      (fun x => x == H) = [H] := by
  obtain ⟨ctx, hinv⟩ := hinv
  unfold dispatchTrace
  rw [invokedH_flatMap, filter_flatMap]
  refine flatMap_single hcnt ?_ ?_
  · rw [hty, listenersAt_observeExpected_self, List.map_append, invokedH_append,
      List.filter_append]
    rw [filter_invokedH_free N
      (fun r hr => handler_ne_of_free hl (hty ▸ hr))]
    rw [List.map_singleton, invokedH_single_invoked hinv]
    rw [List.filter_singleton]
    simp [freshResponder]
  · intro m hm
    rw [listenersAt_observeExpected_ne dom s N E H u
      (fun hpair => hm (congrArg Prod.fst hpair).symm)]
    exact filter_invokedH_free m (fun r hr => handler_ne_of_free hl hr)

/-! ### Claim C4 -/

/-- Claim C4: calling observe(N, E, H) twice with the identical handler
registers exactly one binding for H in the (N, E) bucket — the second call is
a no-op that returns N with the state unchanged — and dispatching E on N
(along a path that visits N once) invokes H exactly once. -/
theorem claim4_duplicate_observe (dom : Dom) (s : EvState) (N : Nat) (E : String)
    (H : Nat) (hc : cacheHandlerFree s H) (hl : listenersHandlerFree s H)
    (hpath : (claimPath dom N E).count N = 1) :
    observe dom (observe dom s N E H).2 N E H = (N, (observe dom s N E H).2) ∧
    ((bindingsFor dom (observe dom s N E H).2 N E).filter
      (fun b => b.handler == H)).length = 1 ∧
    (invokedH (dispatchEventName dom (observe dom s N E H).2 N E)).filter
      (fun x => x == H) = [H] := by
  rcases hg : getUniqueElementID dom s N with ⟨u, s₀⟩
  have hcache : s₀.cache = s.cache := by
    have := guid_cache dom s N; rw [hg] at this; exact this
  have hlis : s₀.listeners = s.listeners := by
    have := guid_listeners dom s N; rw [hg] at this; exact this
  have hres₀ : uidResolved dom s₀ N u := by
    have := uidResolved_guid dom s N; rw [hg] at this; exact this
  have hc₀ : cacheHandlerFree s₀ H := cacheHandlerFree_of_eq hcache hc
  have hl₀ : listenersHandlerFree s₀ H := listenersHandlerFree_of_eq hlis hl
  have hobs : observe dom s N E H = (N, observeExpected dom s₀ N E H u) := by
    rw [observe_eq_guid dom s N E H, hg]
    exact observe_fresh hres₀ (bucket_free_of_cacheFree hc₀ u E)
      (fresh_not_mem_listeners hl₀ u E N (actualEventName E))
  rw [hobs]
  dsimp only
  have hres₁ : uidResolved dom (observeExpected dom s₀ N E H u) N u :=
    uidResolved_of_uids_eq hres₀ rfl
  refine ⟨?_, ?_, ?_⟩
  · refine observe_dup hres₁ ?_
    rw [bucketAt_observeExpected]
    exact ⟨{ responder := freshResponder s₀ u E H, handler := H },
      List.mem_append_right _ (List.mem_singleton.2 rfl), rfl⟩
  · rw [bindingsFor_eq_bucketAt (uidOf_of_resolved hres₁) E, bucketAt_observeExpected,
      List.filter_append, filter_handler_free (bucket_free_of_cacheFree hc₀ u E),
      List.filter_singleton]
    simp
  · unfold dispatchEventName
    by_cases hcust : isCustomEvent E
    · rw [if_pos hcust]
      have hfr : (fire dom (observeExpected dom s₀ N E H u) N E JVal.undef JVal.undef).2.1 =
          dispatchTrace dom (observeExpected dom s₀ N E H u)
            { type := "dataavailable", bubbles := true, cancelable := true,
              eventName := some E, memo := emptyObject,
              target := getFireTarget dom N, currentTarget := none } := rfl
      rw [hfr]
      refine trace_filter_after_observe hl₀ ?_ ?_ ?_
      · show "dataavailable" = actualEventName E
        unfold actualEventName
        rw [if_pos hcust]
      · exact ⟨_, runResponder_custom_match hcust rfl⟩
      · have hcp : claimPath dom N E = nodeChain dom (getFireTarget dom N) := by
          unfold claimPath
          rw [if_pos hcust]
        rw [show dispatchPath dom
            { type := "dataavailable", bubbles := true, cancelable := true,
              eventName := some E, memo := emptyObject,
              target := getFireTarget dom N, currentTarget := none } =
            nodeChain dom (getFireTarget dom N) from rfl, ← hcp]
        exact hpath
    · rw [if_neg hcust]
      refine trace_filter_after_observe hl₀ ?_ ?_ ?_
      · show E = actualEventName E
        unfold actualEventName
        rw [if_neg hcust]
      · exact ⟨_, runResponder_native_entry hcust (cache_observeExpected_self ..)⟩
      · have hcp : claimPath dom N E = nodeChain dom N := by
          unfold claimPath
          rw [if_neg hcust]
        rw [show dispatchPath dom
            { type := E, bubbles := true, cancelable := true,
              eventName := none, memo := JVal.undef,
              target := N, currentTarget := none } = nodeChain dom N from rfl, ← hcp]
        exact hpath

/-- Witness for claim C4 at a concrete input. -/
theorem claim4_witness :
    cacheHandlerFree initialState 7 ∧ listenersHandlerFree initialState 7 ∧
    (claimPath sampleDom 5 "click").count 5 = 1 ∧
    (observe sampleDom (observe sampleDom initialState 5 "click" 7).2 5 "click" 7 =
      (5, (observe sampleDom initialState 5 "click" 7).2) ∧
    ((bindingsFor sampleDom (observe sampleDom initialState 5 "click" 7).2 5 "click").filter
      (fun b => b.handler == 7)).length = 1 ∧
    (invokedH (dispatchEventName sampleDom
      (observe sampleDom initialState 5 "click" 7).2 5 "click")).filter
      (fun x => x == 7) = [7]) :=
  ⟨by intro q hq; simp [initialState] at hq, by intro q hq; simp [initialState] at hq,
    by decide,
    claim4_duplicate_observe sampleDom initialState 5 "click" 7
      (by intro q hq; simp [initialState] at hq)
      (by intro q hq; simp [initialState] at hq)
      (by decide)⟩

/-! ### Claim C7 support -/

theorem filter_invokedH_nil {s' : EvState} {ev : PEvent} {rs : List Responder}
    {p : Nat → Bool} (node : Nat) (hfree : ∀ r ∈ rs, p r.handler = false) :
    (invokedH (rs.map (fun r => (node, r, runResponder s' r ev)))).filter p = [] := by
  induction rs with
  | nil => rfl
  | cons r rest ih =>
    have hr : p r.handler = false := hfree r (List.mem_cons_self r rest)
    have ihh := ih (fun x hx => hfree x (List.mem_cons_of_mem r hx))
    rw [List.map_cons]
    unfold invokedH invokedHandlers at ihh ⊢
    rw [List.filterMap_cons]
    cases hres : runResponder s' r ev with
    | invoked ctx =>
      dsimp only
      rw [List.map_cons, List.filter_cons]
      simp only [hr, Bool.false_eq_true, if_false]
      exact ihh
    | skipped => exact ihh
    | errored => exact ihh

/-- Dispatching after two observes (H1 then H2, distinct and both fresh)
invokes H1 once and H2 once, in that order. -/
theorem trace_filter_after_two_observes {dom : Dom} {s : EvState} {N u H1 H2 : Nat}
    {E : String} {ev : PEvent}
    (hl1 : listenersHandlerFree s H1) (hl2 : listenersHandlerFree s H2)
    (hne : H1 ≠ H2)
    (hty : ev.type = actualEventName E)
    (hinv1 : ∃ ctx, runResponder
      (observeExpected dom (observeExpected dom s N E H1 u) N E H2 u)
      (freshResponder s u E H1) ev = .invoked ctx)
    (hinv2 : ∃ ctx, runResponder
      (observeExpected dom (observeExpected dom s N E H1 u) N E H2 u)
      (freshResponder (observeExpected dom s N E H1 u) u E H2) ev = .invoked ctx)
    (hcnt : (dispatchPath dom ev).count N = 1) :
    (invokedH (dispatchTrace dom
      (observeExpected dom (observeExpected dom s N E H1 u) N E H2 u) ev)).filter
      (fun x => x == H1 || x == H2) = [H1, H2] := by
  obtain ⟨ctx1, hinv1⟩ := hinv1
  obtain ⟨ctx2, hinv2⟩ := hinv2
  unfold dispatchTrace
  rw [invokedH_flatMap, filter_flatMap]
  refine flatMap_single hcnt ?_ ?_
  · rw [hty, listenersAt_observeExpected_self, listenersAt_observeExpected_self,
      List.map_append, List.map_append, invokedH_append, invokedH_append,
      List.filter_append, List.filter_append]
    rw [filter_invokedH_nil N (fun r hr => ?_),
      List.map_singleton, List.map_singleton,
      invokedH_single_invoked hinv1, invokedH_single_invoked hinv2,
      List.filter_singleton, List.filter_singleton]
    · have h1 : ((freshResponder s u E H1).handler == H1 ||
          (freshResponder s u E H1).handler == H2) = true := by
        simp [freshResponder]
      have h2 : ((freshResponder (observeExpected dom s N E H1 u) u E H2).handler == H1 ||
          (freshResponder (observeExpected dom s N E H1 u) u E H2).handler == H2) = true := by
        simp [freshResponder]
      rw [h1, h2]
      rfl
    · have hr1 : r.handler ≠ H1 := handler_ne_of_free hl1 hr
      have hr2 : r.handler ≠ H2 := handler_ne_of_free hl2 hr
      simp [hr1, hr2]
  · intro m hm
    rw [listenersAt_observeExpected_ne dom _ N E H2 u
      (fun hpair => hm (congrArg Prod.fst hpair).symm)]
    rw [listenersAt_observeExpected_ne dom s N E H1 u
      (fun hpair => hm (congrArg Prod.fst hpair).symm)]
    refine filter_invokedH_nil m (fun r hr => ?_)
    have hr1 : r.handler ≠ H1 := handler_ne_of_free hl1 hr
    have hr2 : r.handler ≠ H2 := handler_ne_of_free hl2 hr
    simp [hr1, hr2]

/-! ### Claim C7 -/

/-- Claim C7: the (N, E) bucket is append-only and handlers run in
registration order — after observe(N, E, H1) then observe(N, E, H2) with
distinct fresh handlers, a single dispatch of E on N (along a path visiting
N once) invokes H1 exactly once and H2 exactly once, with H1 first. -/
theorem claim7_invocation_order (dom : Dom) (s : EvState) (N : Nat) (E : String)
    (H1 H2 : Nat) (hne : H1 ≠ H2)
    (hc1 : cacheHandlerFree s H1) (hl1 : listenersHandlerFree s H1)
    (hc2 : cacheHandlerFree s H2) (hl2 : listenersHandlerFree s H2)
    (hpath : (claimPath dom N E).count N = 1) :
    (invokedH (dispatchEventName dom
      (observe dom (observe dom s N E H1).2 N E H2).2 N E)).filter
      (fun x => x == H1 || x == H2) = [H1, H2] := by
  rcases hg : getUniqueElementID dom s N with ⟨u, s₀⟩
  have hcache : s₀.cache = s.cache := by
    have := guid_cache dom s N; rw [hg] at this; exact this
  have hlis : s₀.listeners = s.listeners := by
    have := guid_listeners dom s N; rw [hg] at this; exact this
  have hres₀ : uidResolved dom s₀ N u := by
    have := uidResolved_guid dom s N; rw [hg] at this; exact this
  have hc₀1 : cacheHandlerFree s₀ H1 := cacheHandlerFree_of_eq hcache hc1
  have hl₀1 : listenersHandlerFree s₀ H1 := listenersHandlerFree_of_eq hlis hl1
  have hc₀2 : cacheHandlerFree s₀ H2 := cacheHandlerFree_of_eq hcache hc2
  have hl₀2 : listenersHandlerFree s₀ H2 := listenersHandlerFree_of_eq hlis hl2
  have hobs1 : observe dom s N E H1 = (N, observeExpected dom s₀ N E H1 u) := by
    rw [observe_eq_guid dom s N E H1, hg]
    exact observe_fresh hres₀ (bucket_free_of_cacheFree hc₀1 u E)
      (fresh_not_mem_listeners hl₀1 u E N (actualEventName E))
  rw [hobs1]
  dsimp only
  have hres₁ : uidResolved dom (observeExpected dom s₀ N E H1 u) N u :=
    uidResolved_of_uids_eq hres₀ rfl
  have hobs2 : observe dom (observeExpected dom s₀ N E H1 u) N E H2 =
      (N, observeExpected dom (observeExpected dom s₀ N E H1 u) N E H2 u) := by
    refine observe_fresh hres₁ ?_ ?_
    · rw [bucketAt_observeExpected]
      intro b hb
      rcases List.mem_append.1 hb with h | h
      · exact bucket_free_of_cacheFree hc₀2 u E b h
      · simp at h
        rw [h]
        exact hne
    · rw [listenersAt_observeExpected_self]
      intro hmem
      rcases List.mem_append.1 hmem with h | h
      · exact handler_ne_of_free hl₀2 h rfl
      · simp [freshResponder] at h
        exact hne h.2.symm
  rw [hobs2]
  dsimp only
  unfold dispatchEventName
  by_cases hcust : isCustomEvent E
  · rw [if_pos hcust]
    have hfr : (fire dom
        (observeExpected dom (observeExpected dom s₀ N E H1 u) N E H2 u) N E
        JVal.undef JVal.undef).2.1 =
        dispatchTrace dom
          (observeExpected dom (observeExpected dom s₀ N E H1 u) N E H2 u)
          { type := "dataavailable", bubbles := true, cancelable := true,
            eventName := some E, memo := emptyObject,
            target := getFireTarget dom N, currentTarget := none } := rfl
    rw [hfr]
    refine trace_filter_after_two_observes hl₀1 hl₀2 hne ?_ ?_ ?_ ?_
    · show "dataavailable" = actualEventName E
      unfold actualEventName
      rw [if_pos hcust]
    · exact ⟨_, runResponder_custom_match hcust rfl⟩
    · exact ⟨_, runResponder_custom_match hcust rfl⟩
    · have hcp : claimPath dom N E = nodeChain dom (getFireTarget dom N) := by
        unfold claimPath
        rw [if_pos hcust]
      rw [show dispatchPath dom
          { type := "dataavailable", bubbles := true, cancelable := true,
            eventName := some E, memo := emptyObject,
            target := getFireTarget dom N, currentTarget := none } =
          nodeChain dom (getFireTarget dom N) from rfl, ← hcp]
      exact hpath
  · rw [if_neg hcust]
    refine trace_filter_after_two_observes hl₀1 hl₀2 hne ?_ ?_ ?_ ?_
    · show E = actualEventName E
      unfold actualEventName
      rw [if_neg hcust]
    · exact ⟨_, runResponder_native_entry hcust (cache_observeExpected_self ..)⟩
    · exact ⟨_, runResponder_native_entry hcust (cache_observeExpected_self ..)⟩
    · have hcp : claimPath dom N E = nodeChain dom N := by
        unfold claimPath
        rw [if_neg hcust]
      rw [show dispatchPath dom
          { type := E, bubbles := true, cancelable := true,
            eventName := none, memo := JVal.undef,
            target := N, currentTarget := none } = nodeChain dom N from rfl, ← hcp]
      exact hpath

/-- Witness for claim C7 at a concrete input. -/
theorem claim7_witness :
    (1 : Nat) ≠ 2 ∧
    cacheHandlerFree initialState 1 ∧ listenersHandlerFree initialState 1 ∧
    cacheHandlerFree initialState 2 ∧ listenersHandlerFree initialState 2 ∧
    (claimPath sampleDom 5 "click").count 5 = 1 ∧
    (invokedH (dispatchEventName sampleDom
      (observe sampleDom (observe sampleDom initialState 5 "click" 1).2 5 "click" 2).2
      5 "click")).filter (fun x => x == 1 || x == 2) = [1, 2] :=
  ⟨by decide,
    by intro q hq; simp [initialState] at hq, by intro q hq; simp [initialState] at hq,
    by intro q hq; simp [initialState] at hq, by intro q hq; simp [initialState] at hq,
    by decide,
    claim7_invocation_order sampleDom initialState 5 "click" 1 2 (by decide)
      (by intro q hq; simp [initialState] at hq)
      (by intro q hq; simp [initialState] at hq)
      (by intro q hq; simp [initialState] at hq)
      (by intro q hq; simp [initialState] at hq)
      (by decide)⟩

/-! ### Claim C1 (corrected) -/

/-- Counterexample to claim C1 as stated: with the registry entry for uid 3
already destroyed (the cache is empty), the factory's simulated-event
responder still invokes the handler — with an undefined context — when the
tag matches, and a native responder raises a lookup error instead of
returning silently. -/
theorem claim1_counterexample :
    lookupA initialState.cache 3 = none ∧
    (createResponder initialState 3 "ns:foo" 7).1 =
      { rid := 0, uid := 3, eventName := "ns:foo", handler := 7 } ∧
    runResponder initialState (createResponder initialState 3 "ns:foo" 7).1
      { type := "dataavailable", bubbles := true, cancelable := true,
        eventName := some "ns:foo", memo := JVal.undef, target := 5,
        currentTarget := none } = RespResult.invoked none ∧
    runResponder initialState (createResponder initialState 3 "click" 7).1
      { type := "click", bubbles := true, cancelable := true,
        eventName := none, memo := JVal.undef, target := 5,
        currentTarget := none } = RespResult.errored := by
  decide

/-- Claim C1 (amended): when the cache entry for the captured uid has been
destroyed, a responder does not abort silently across the board: the
simulated-event responder returns without invoking the handler only on a
missing or mismatched tag and otherwise invokes the handler with an
unresolved (undefined) context, while the native responder raises an error
reading the missing entry. -/
theorem claim1_amended (s : EvState) (uid : Nat) (E : String) (H : Nat) (ev : PEvent)
    (hdead : lookupA s.cache uid = none) :
    runResponder s (createResponder s uid E H).1 ev =
      (if isCustomEvent E then
        match ev.eventName with
        | none => RespResult.skipped
        | some tag => if tag = E then RespResult.invoked none else RespResult.skipped
      else RespResult.errored) := by
  unfold createResponder runResponder runCustomResponder runNativeResponder
  dsimp only
  by_cases hcust : isCustomEvent E
  · rw [if_pos hcust, if_pos hcust, hdead]
    cases ev.eventName <;> simp
  · rw [if_neg hcust, if_neg hcust, hdead]

/-- Witness for the amended claim C1 at a concrete input. -/
theorem claim1_amended_witness :
    lookupA initialState.cache 3 = none ∧
    runResponder initialState (createResponder initialState 3 "ns:foo" 7).1
      { type := "dataavailable", bubbles := true, cancelable := true,
        eventName := some "ns:bar", memo := JVal.undef, target := 5,
        currentTarget := none } =
      (if isCustomEvent "ns:foo" then
        match (some "ns:bar" : Option String) with
        | none => RespResult.skipped
        | some tag =>
          if tag = "ns:foo" then RespResult.invoked none else RespResult.skipped
      else RespResult.errored) :=
  ⟨by decide,
    claim1_amended initialState 3 "ns:foo" 7
      { type := "dataavailable", bubbles := true, cancelable := true,
        eventName := some "ns:bar", memo := JVal.undef, target := 5,
        currentTarget := none } (by decide)⟩

/-! ### Claim C5 (corrected) -/

/-- Counterexample to claim C5 as stated: a handler registered via observe
for the native carrier event type "dataavailable" itself IS invoked by
fire(N, "ns:foo", ...), although "dataavailable" is neither "ns:foo" nor a
simulated name. -/
theorem claim5_counterexample :
    isCustomEvent "dataavailable" = false ∧
    "dataavailable" ≠ "ns:foo" ∧
    77 ∈ invokedH (fire sampleDom
      (observe sampleDom initialState 5 "dataavailable" 77).2
      5 "ns:foo" JVal.undef JVal.undef).2.1 := by
  decide

/-- Claim C5 (amended): every responder that fire(N, E, payload) causes to
invoke its handler is attached under the carrier type at a node of the
dispatch path and was registered either for the simulated name E itself or
for a native (colon-free) event name — in particular the carrier type
"dataavailable".  Handlers registered for a different simulated name such as
"ns:bar" are never invoked. -/
theorem claim5_amended (dom : Dom) (s : EvState) (N : Nat) (E : String) (P B : JVal)
    (hE : isCustomEvent E = true) :
    ∀ t ∈ (fire dom s N E P B).2.1,
      (∃ ctx, t.2.2 = RespResult.invoked ctx) →
      (t.2.1.eventName = E ∨ isCustomEvent t.2.1.eventName = false) ∧
      t.1 ∈ dispatchPath dom (fire dom s N E P B).1 ∧
      t.2.1 ∈ listenersAt s t.1 "dataavailable" := by
  intro t ht hinv
  obtain ⟨ctx, hctx⟩ := hinv
  have htr : t ∈ dispatchTrace dom s (fire dom s N E P B).1 := ht
  unfold dispatchTrace at htr
  rw [List.mem_flatMap] at htr
  obtain ⟨node, hnode, hmem⟩ := htr
  rw [List.mem_map] at hmem
  obtain ⟨r, hr, hrt⟩ := hmem
  subst hrt
  refine ⟨?_, hnode, hr⟩
  dsimp only at hctx ⊢
  by_cases hcust : isCustomEvent r.eventName
  · left
    unfold runResponder runCustomResponder at hctx
    rw [if_pos hcust] at hctx
    rw [show (fire dom s N E P B).1.eventName = some E from rfl] at hctx
    dsimp only at hctx
    by_cases htag : E = r.eventName
    · exact htag.symm
    · rw [if_neg htag] at hctx
      cases hctx
  · right
    simpa using hcust

/-- Witness for the amended claim C5 at a concrete input: the single
invocation fire produces in this scenario is the "ns:foo" responder's. -/
theorem claim5_amended_witness :
    isCustomEvent "ns:foo" = true ∧
    (5, freshResponder initialState 1 "ns:foo" 9, RespResult.invoked (some 5)) ∈
      (fire sampleDom (observe sampleDom initialState 5 "ns:foo" 9).2
        5 "ns:foo" JVal.undef JVal.undef).2.1 ∧
    ((freshResponder initialState 1 "ns:foo" 9).eventName = "ns:foo" ∨
      isCustomEvent (freshResponder initialState 1 "ns:foo" 9).eventName = false) ∧
    5 ∈ dispatchPath sampleDom
      (fire sampleDom (observe sampleDom initialState 5 "ns:foo" 9).2
        5 "ns:foo" JVal.undef JVal.undef).1 ∧
    freshResponder initialState 1 "ns:foo" 9 ∈
      listenersAt (observe sampleDom initialState 5 "ns:foo" 9).2 5 "dataavailable" :=
  ⟨by decide, by decide,
    (claim5_amended sampleDom (observe sampleDom initialState 5 "ns:foo" 9).2
      5 "ns:foo" JVal.undef JVal.undef (by decide)
      (5, freshResponder initialState 1 "ns:foo" 9, RespResult.invoked (some 5))
      (by decide) ⟨some 5, rfl⟩).1,
    ((claim5_amended sampleDom (observe sampleDom initialState 5 "ns:foo" 9).2
      5 "ns:foo" JVal.undef JVal.undef (by decide)
      (5, freshResponder initialState 1 "ns:foo" 9, RespResult.invoked (some 5))
      (by decide) ⟨some 5, rfl⟩).2).1,
    ((claim5_amended sampleDom (observe sampleDom initialState 5 "ns:foo" 9).2
      5 "ns:foo" JVal.undef JVal.undef (by decide)
      (5, freshResponder initialState 1 "ns:foo" 9, RespResult.invoked (some 5))
      (by decide) ⟨some 5, rfl⟩).2).2⟩

/-! ### Claim C6 (corrected) -/

/-- Counterexample to claim C6 as stated: with the chain 1 → 2 → 3 and a
delegation handler rooted at R = 2 with selector "s", an event originating
at D = 1 invokes the callback with node 3 — the root's own parent — even
though no ancestor of D up to and including R matches "s". -/
theorem claim6_counterexample :
    chainDom.matchesSel 1 "s" = false ∧
    chainDom.matchesSel 2 "s" = false ∧
    handleEvent chainDom
      { element := 2, eventName := "click", selector := SelArg.sel "s",
        callback := some 9 }
      { type := "click", bubbles := true, cancelable := true, eventName := none,
        memo := JVal.undef, target := 1, currentTarget := some 2 } =
      some (2, 3) := by
  decide

theorem findElementLoop_chain {dom : Dom} {S : String} {d : Nat} {L : List Nat}
    (hchain : IsChain dom d L) :
    ∀ fuel, L.length ≤ fuel →
      findElementLoop dom S (some d) fuel =
        L.find? (fun m => dom.isElement m && dom.matchesSel m S) := by
  induction hchain with
  | root n hn =>
    intro fuel hf
    cases fuel with
    | zero => simp at hf
    | succ k =>
      unfold findElementLoop
      by_cases hp : (dom.isElement n && dom.matchesSel n S) = true
      · rw [if_pos hp, List.find?_cons]
        rw [hp]
      · have hpf : (dom.isElement n && dom.matchesSel n S) = false := by
          simpa using hp
        rw [if_neg hp, hn, List.find?_cons]
        rw [hpf]
        show findElementLoop dom S none k = none
        cases k <;> rfl
  | step n p L hp hL ih =>
    intro fuel hf
    cases fuel with
    | zero => simp at hf
    | succ k =>
      unfold findElementLoop
      by_cases hpn : (dom.isElement n && dom.matchesSel n S) = true
      · rw [if_pos hpn, List.find?_cons]
        rw [hpn]
      · have hpf : (dom.isElement n && dom.matchesSel n S) = false := by
          simpa using hpn
        rw [if_neg hpn, hp, List.find?_cons]
        rw [hpf]
        show findElementLoop dom S (some p) k =
          L.find? (fun m => dom.isElement m && dom.matchesSel m S)
        refine ih k ?_
        simp only [List.length_cons] at hf
        omega

/-- Claim C6 (amended): a delegation handler with a (non-empty) selector S
invokes its callback — with the root as context — on the nearest matching
node of the event element's ENTIRE inclusive ancestor chain, up to the
document root; the callback stays silent only when no node of that whole
chain matches.  The walk is not truncated at the delegation root. -/
theorem claim6_amended (dom : Dom) (h : EHandler) (ev : PEvent) (S : String)
    (hsel : h.selector = SelArg.sel S) (hS : S ≠ "") {d : Nat}
    (hel : elementOf dom ev = some d) {L : List Nat} (hchain : IsChain dom d L)
    (hlen : L.length ≤ dom.parents.length + 1) :
    handleEvent dom h ev =
      (L.find? (fun m => dom.isElement m && dom.matchesSel m S)).map
        (fun m => (h.element, m)) := by
  unfold handleEvent findElement
  rw [hsel]
  dsimp only
  rw [if_neg hS, hel, findElementLoop_chain hchain (dom.parents.length + 1) hlen]
  cases L.find? (fun m => dom.isElement m && dom.matchesSel m S) <;> rfl

/-- Witness for the amended claim C6 at a concrete input (the scenario of
the counterexample: the nearest match on the full chain is node 3). -/
theorem claim6_amended_witness :
    (SelArg.sel "s" = SelArg.sel "s") ∧ ("s" : String) ≠ "" ∧
    elementOf chainDom
      { type := "click", bubbles := true, cancelable := true, eventName := none,
        memo := JVal.undef, target := 1, currentTarget := some 2 } = some 1 ∧
    IsChain chainDom 1 [1, 2, 3] ∧
    ([1, 2, 3] : List Nat).length ≤ chainDom.parents.length + 1 ∧
    handleEvent chainDom
      { element := 2, eventName := "click", selector := SelArg.sel "s",
        callback := some 9 }
      { type := "click", bubbles := true, cancelable := true, eventName := none,
        memo := JVal.undef, target := 1, currentTarget := some 2 } =
      (([1, 2, 3] : List Nat).find?
        (fun m => chainDom.isElement m && chainDom.matchesSel m "s")).map
        (fun m => (2, m)) := by
  have hchain : IsChain chainDom 1 [1, 2, 3] :=
    IsChain.step 1 2 [2, 3] (by decide)
      (IsChain.step 2 3 [3] (by decide) (IsChain.root 3 (by decide)))
  refine ⟨rfl, by decide, by decide, hchain, by decide, ?_⟩
  exact claim6_amended chainDom
    { element := 2, eventName := "click", selector := SelArg.sel "s",
      callback := some 9 }
    { type := "click", bubbles := true, cancelable := true, eventName := none,
      memo := JVal.undef, target := 1, currentTarget := some 2 }
    "s" rfl (by decide) (by decide) hchain (by decide)

/-! ### Claim C8 (corrected) -/

/-- Counterexample to claim C8 as stated: a provided but falsy payload (the
number 0) is not stamped as the memo — the code stamps a fresh empty object
because of the `memo || {}` truthiness test. -/
theorem claim8_counterexample :
    (fire sampleDom initialState 5 "ns:x" (JVal.num 0) JVal.undef).1.memo =
      emptyObject ∧
    emptyObject ≠ JVal.num 0 := by
  decide

/-- Claim C8 (amended): fire builds a platform event of the fixed carrier
type "dataavailable", stamps the logical event name E, stamps the payload
as memo when it is truthy and a fresh empty object when it is omitted or
otherwise falsy, defaults bubbling to true exactly when the bubble argument
is undefined, targets the fire target (the document's top-level element when
the node is the document root and direct dispatch is unsupported), returns
the event after its full synchronous dispatch trace, and leaves the state
untouched. -/
theorem claim8_amended (dom : Dom) (s : EvState) (N : Nat) (E : String) (P B : JVal)
    (hE : isCustomEvent E = true) :
    (fire dom s N E P B).1.type = "dataavailable" ∧
    (fire dom s N E P B).1.eventName = some E ∧
    (fire dom s N E P B).1.memo = (if truthy P then P else emptyObject) ∧
    (fire dom s N E P B).1.bubbles = (if B = JVal.undef then true else truthy B) ∧
    (fire dom s N E P B).1.target = getFireTarget dom N ∧
    (fire dom s N E P B).2.1 = dispatchTrace dom s (fire dom s N E P B).1 ∧
    (fire dom s N E P B).2.2 = s :=
  ⟨rfl, rfl, rfl, rfl, rfl, rfl, rfl⟩

/-- Witness for the amended claim C8 at a concrete input. -/
theorem claim8_amended_witness :
    isCustomEvent "ns:x" = true ∧
    ((fire sampleDom initialState 5 "ns:x" (JVal.num 3) JVal.undef).1.type =
        "dataavailable" ∧
      (fire sampleDom initialState 5 "ns:x" (JVal.num 3) JVal.undef).1.eventName =
        some "ns:x" ∧
      (fire sampleDom initialState 5 "ns:x" (JVal.num 3) JVal.undef).1.memo =
        (if truthy (JVal.num 3) then JVal.num 3 else emptyObject) ∧
      (fire sampleDom initialState 5 "ns:x" (JVal.num 3) JVal.undef).1.bubbles =
        (if (JVal.undef : JVal) = JVal.undef then true else truthy JVal.undef) ∧
      (fire sampleDom initialState 5 "ns:x" (JVal.num 3) JVal.undef).1.target =
        getFireTarget sampleDom 5 ∧
      (fire sampleDom initialState 5 "ns:x" (JVal.num 3) JVal.undef).2.1 =
        dispatchTrace sampleDom initialState
          (fire sampleDom initialState 5 "ns:x" (JVal.num 3) JVal.undef).1 ∧
      (fire sampleDom initialState 5 "ns:x" (JVal.num 3) JVal.undef).2.2 =
        initialState) :=
  ⟨by decide, claim8_amended sampleDom initialState 5 "ns:x" (JVal.num 3) JVal.undef
    (by decide)⟩

/-! ### Claim C9 -/

/-- Claim C9: on(R, E, F) with a function in the selector slot and no fourth
argument treats F as the callback and the selector as absent, so the
resulting delegation handler invokes F — with R as context — on every event
it handles, without selector filtering; the matched element passed to F is
the event's originating element. -/
theorem claim9_on_function_selector (dom : Dom) (R : Nat) (E : String) (F : Nat)
    (ev : PEvent) :
    (onHandler R E (SelArg.fn F) none).selector = SelArg.nil ∧
    (onHandler R E (SelArg.fn F) none).callback = some F ∧
    handleEvent dom (onHandler R E (SelArg.fn F) none) ev =
      (elementOf dom ev).map (fun m => (R, m)) := by
  refine ⟨rfl, rfl, ?_⟩
  unfold handleEvent onHandler onArgs findElement
  dsimp only
  cases elementOf dom ev <;> rfl

/-! ### Claim C10 -/

/-- Claim C10: fire(N, E, P) leaves the event registry, the uid expandos and
the identity counter unchanged — with handlers modeled as opaque (no
re-entrant observe/stopObserving), the state after fire is the state before
it, so the set of registered bindings of every node and event name is
identical. -/
theorem claim10_fire_frame (dom : Dom) (s : EvState) (N : Nat) (E : String)
    (P B : JVal) (hE : isCustomEvent E = true) :
    (fire dom s N E P B).2.2.cache = s.cache ∧
    (fire dom s N E P B).2.2.uids = s.uids ∧
    (fire dom s N E P B).2.2.uidCounter = s.uidCounter ∧
    (fire dom s N E P B).2.2 = s :=
  ⟨rfl, rfl, rfl, rfl⟩

/-- Witness for claim C10 at a concrete input (a nontrivial state with one
registered binding). -/
theorem claim10_witness :
    isCustomEvent "ns:foo" = true ∧
    ((fire sampleDom (observe sampleDom initialState 5 "ns:foo" 9).2
        5 "ns:foo" JVal.undef JVal.undef).2.2.cache =
      (observe sampleDom initialState 5 "ns:foo" 9).2.cache ∧
    (fire sampleDom (observe sampleDom initialState 5 "ns:foo" 9).2
        5 "ns:foo" JVal.undef JVal.undef).2.2.uids =
      (observe sampleDom initialState 5 "ns:foo" 9).2.uids ∧
    (fire sampleDom (observe sampleDom initialState 5 "ns:foo" 9).2
        5 "ns:foo" JVal.undef JVal.undef).2.2.uidCounter =
      (observe sampleDom initialState 5 "ns:foo" 9).2.uidCounter ∧
    (fire sampleDom (observe sampleDom initialState 5 "ns:foo" 9).2
        5 "ns:foo" JVal.undef JVal.undef).2.2 =
      (observe sampleDom initialState 5 "ns:foo" 9).2) :=
  ⟨by decide, claim10_fire_frame sampleDom
    (observe sampleDom initialState 5 "ns:foo" 9).2 5 "ns:foo"
    JVal.undef JVal.undef (by decide)⟩

end Proto
